import Mathlib

/-!
Verification of the tap-avantlink extraction core against its source
(`tap_avantlink/client.py`, `tap_avantlink/streams.py`).

The Python code is shallowly embedded: pure helpers become Lean functions,
Python exceptions become `Except PyErr`, Python `None`/`str`/`int`/`float`
cell values become the `Cell` inductive (floats are modelled as exact
rationals; every float literal appearing in the claims is exactly
representable in binary, so the rational model agrees with IEEE semantics
on all inputs the theorems mention), and `datetime` values become either a
civil-calendar record (`PyDateTime`, mirroring CPython's field-based
datetime) or, for the paginator which only compares instants and adds
whole-day timedeltas, an integer count of seconds on the timeline.
-/

namespace TapAvantlink

/-! ## Decimal digit strings

CPython renders and reads datetime fields as decimal digit strings
(`strftime` / `strptime`).  `natDigits n` is the decimal rendering of `n`
(no padding, as glibc `%Y` prints years), `pad2` the two-digit
zero-padded rendering used by `%m %d %H %M %S`, and `parseDigitsNat`
reads a digit run back.  -/

/-- The character of a decimal digit. -/
def digitChar (n : Nat) : Char := Char.ofNat (48 + n)

/-- The numeric value of a digit character. -/
def digitVal (c : Char) : Nat := c.toNat - 48

/-- Fuel-driven core of the decimal rendering (structural in the fuel, so
that the kernel can evaluate it on concrete inputs). -/
def natDigitsGo : Nat → Nat → List Char → List Char
  | 0, _, acc => acc
  | fuel + 1, n, acc =>
    if n < 10 then digitChar n :: acc
    else natDigitsGo fuel (n / 10) (digitChar (n % 10) :: acc)

/-- The decimal rendering of a natural number, most significant digit
first, no padding. -/
def natDigits (n : Nat) : List Char := natDigitsGo (n + 1) n []

/-- The value of a big-endian digit run. -/
def parseDigitsNat (ds : List Char) : Nat :=
  ds.foldl (fun a c => 10 * a + digitVal c) 0

theorem digitVal_digitChar {n : Nat} (h : n < 10) : digitVal (digitChar n) = n := by
  interval_cases n <;> decide

theorem isDigit_digitChar {n : Nat} (h : n < 10) : (digitChar n).isDigit = true := by
  interval_cases n <;> decide

theorem natDigitsGo_fuel_irrel :
    ∀ f₁ : Nat, ∀ f₂ n : Nat, ∀ acc : List Char, n < f₁ → n < f₂ →
      natDigitsGo f₁ n acc = natDigitsGo f₂ n acc := by
  intro f₁
  induction f₁ with
  | zero => intro f₂ n acc h1 _; exact absurd h1 (Nat.not_lt_zero _)
  | succ f ih =>
    intro f₂ n acc h1 h2
    obtain ⟨f', rfl⟩ : ∃ f', f₂ = f' + 1 := ⟨f₂ - 1, by omega⟩
    by_cases hn : n < 10
    · simp [natDigitsGo, hn]
    · simp only [natDigitsGo, if_neg hn]
      exact ih f' (n / 10) _ (by omega) (by omega)

theorem natDigitsGo_acc :
    ∀ f n : Nat, ∀ acc : List Char, n < f →
      natDigitsGo f n acc = natDigitsGo f n [] ++ acc := by
  intro f
  induction f with
  | zero => intro n acc h; exact absurd h (Nat.not_lt_zero _)
  | succ f ih =>
    intro n acc hn
    by_cases h10 : n < 10
    · simp [natDigitsGo, h10]
    · simp only [natDigitsGo, if_neg h10]
      have hlt : n / 10 < f := by omega
      rw [ih (n / 10) _ hlt, ih (n / 10) [digitChar (n % 10)] hlt, List.append_assoc]
      rfl

theorem natDigits_lt {n : Nat} (h : n < 10) : natDigits n = [digitChar n] := by
  simp [natDigits, natDigitsGo, h]

theorem natDigits_ge {n : Nat} (h : 10 ≤ n) :
    natDigits n = natDigits (n / 10) ++ [digitChar (n % 10)] := by
  have hlt : n / 10 < n := Nat.div_lt_self (by omega) (by omega)
  show natDigitsGo (n + 1) n [] = _
  rw [show natDigitsGo (n + 1) n [] =
      natDigitsGo n (n / 10) [digitChar (n % 10)] by simp [natDigitsGo, Nat.not_lt.mpr h]]
  rw [natDigitsGo_acc n (n / 10) _ hlt,
    natDigitsGo_fuel_irrel n (n / 10 + 1) (n / 10) [] hlt (Nat.lt_succ_self _)]
  rfl

theorem parseDigitsNat_append_singleton (ds : List Char) (c : Char) :
    parseDigitsNat (ds ++ [c]) = 10 * parseDigitsNat ds + digitVal c := by
  simp [parseDigitsNat, List.foldl_append]

theorem parseDigitsNat_natDigits (n : Nat) : parseDigitsNat (natDigits n) = n := by
  induction n using Nat.strong_induction_on with
  | _ n ih =>
    by_cases h : n < 10
    · rw [natDigits_lt h]
      simp [parseDigitsNat, digitVal_digitChar h]
    · rw [natDigits_ge (by omega), parseDigitsNat_append_singleton,
        ih (n / 10) (Nat.div_lt_self (by omega) (by omega)),
        digitVal_digitChar (Nat.mod_lt _ (by omega))]
      omega

theorem natDigits_all_digits (n : Nat) : ∀ c ∈ natDigits n, c.isDigit = true := by
  induction n using Nat.strong_induction_on with
  | _ n ih =>
    by_cases h : n < 10
    · rw [natDigits_lt h]
      intro c hc
      rw [List.mem_singleton] at hc
      subst hc
      exact isDigit_digitChar h
    · rw [natDigits_ge (by omega)]
      intro c hc
      rcases List.mem_append.mp hc with h1 | h1
      · exact ih (n / 10) (Nat.div_lt_self (by omega) (by omega)) c h1
      · rw [List.mem_singleton] at h1
        subst h1
        exact isDigit_digitChar (Nat.mod_lt _ (by omega))

theorem natDigits_ne_nil (n : Nat) : natDigits n ≠ [] := by
  by_cases h : n < 10
  · rw [natDigits_lt h]; simp
  · rw [natDigits_ge (by omega)]; simp

theorem natDigits_length_le :
    ∀ k n : Nat, 1 ≤ k → n < 10 ^ k → (natDigits n).length ≤ k := by
  intro k
  induction k with
  | zero => intro n hk _; exact absurd hk (by omega)
  | succ k ih =>
    intro n _ h
    by_cases h10 : n < 10
    · rw [natDigits_lt h10]; simp
    · rw [natDigits_ge (by omega), List.length_append]
      have hdiv : n / 10 < 10 ^ k := by
        rw [Nat.div_lt_iff_lt_mul (by omega)]
        calc n < 10 ^ (k + 1) := h
        _ = 10 ^ k * 10 := by ring
      have hk : 1 ≤ k := by
        rcases Nat.eq_zero_or_pos k with rfl | hp
        · simp at hdiv; omega
        · exact hp
      have := ih (n / 10) hk hdiv
      simp only [List.length_singleton]
      omega

/-- Two-digit zero-padded rendering, as `strftime` pads `%m %d %H %M %S`. -/
def pad2 (n : Nat) : List Char := if n < 10 then '0' :: natDigits n else natDigits n

/-- Greedy scan of at most `w` leading digit characters, as the regex
`\d{1,w}` built by `_strptime` matches a numeric directive (each numeric
directive of the formats used here is followed by a non-digit literal, so
greedy matching without backtracking coincides with the regex). -/
def takeDigits : Nat → List Char → List Char × List Char
  | 0, cs => ([], cs)
  | _ + 1, [] => ([], [])
  | w + 1, c :: cs =>
    if c.isDigit then
      let p := takeDigits w cs
      (c :: p.1, p.2)
    else ([], c :: cs)

/-- A numeric directive: at least one digit, at most `w`, read as a number. -/
def expectNum (w : Nat) (cs : List Char) : Option (Nat × List Char) :=
  match takeDigits w cs with
  | ([], _) => Option.none
  | (ds, rest) => some (parseDigitsNat ds, rest)

/-- A literal character of the format. -/
def expectChar (c : Char) : List Char → Option (List Char)
  | d :: cs => if d = c then some cs else Option.none
  | [] => Option.none

/-- The head of the remaining input is not a digit (or the input is over). -/
def headNotDigit : List Char → Prop
  | [] => True
  | c :: _ => c.isDigit = false

theorem takeDigits_exact :
    ∀ ds : List Char, ∀ w : Nat, ∀ rest : List Char,
      (∀ c ∈ ds, c.isDigit = true) → ds.length ≤ w → headNotDigit rest →
      takeDigits w (ds ++ rest) = (ds, rest) := by
  intro ds
  induction ds with
  | nil =>
    intro w rest _ _ hrest
    cases w with
    | zero =>
      cases rest with
      | nil => rfl
      | cons c cs => rfl
    | succ w =>
      cases rest with
      | nil => rfl
      | cons c cs =>
        simp only [List.nil_append, takeDigits]
        rw [if_neg]
        simp only [headNotDigit] at hrest
        simp [hrest]
  | cons d ds ih =>
    intro w rest hall hlen hrest
    obtain ⟨w', rfl⟩ : ∃ w', w = w' + 1 := ⟨w - 1, by simp at hlen; omega⟩
    simp only [List.cons_append, takeDigits]
    rw [if_pos (hall d (List.mem_cons_self d ds))]
    have h2 := ih w' rest (fun c hc => hall c (List.mem_cons_of_mem d hc)) (by simp at hlen ⊢; omega) hrest
    simp only [List.append_eq] at h2 ⊢
    rw [h2]

theorem expectNum_exact {n w : Nat} {rest : List Char}
    (hlen : (natDigits n).length ≤ w) (hrest : headNotDigit rest) :
    expectNum w (natDigits n ++ rest) = some (n, rest) := by
  have ht := takeDigits_exact (natDigits n) w rest (natDigits_all_digits n) hlen hrest
  simp only [expectNum]
  rw [ht]
  have hne := natDigits_ne_nil n
  cases hd : natDigits n with
  | nil => exact absurd hd hne
  | cons c cs =>
    show some (parseDigitsNat (c :: cs), rest) = some (n, rest)
    rw [← hd, parseDigitsNat_natDigits]

theorem pad2_all_digits (n : Nat) : ∀ c ∈ pad2 n, c.isDigit = true := by
  rw [pad2]
  split
  · intro c hc
    rcases List.mem_cons.mp hc with rfl | h
    · decide
    · exact natDigits_all_digits n c h
  · exact natDigits_all_digits n

theorem pad2_length_le {n : Nat} (h : n < 100) : (pad2 n).length ≤ 2 := by
  rw [pad2]
  split
  · rename_i h10
    simp only [List.length_cons]
    have := natDigits_length_le 1 n (by omega) (by simpa using h10)
    omega
  · exact natDigits_length_le 2 n (by omega) (by simpa using h)

theorem parseDigitsNat_pad2 (n : Nat) : parseDigitsNat (pad2 n) = n := by
  rw [pad2]
  split
  · show parseDigitsNat ('0' :: natDigits n) = n
    have : parseDigitsNat ('0' :: natDigits n) = parseDigitsNat (natDigits n) := by
      simp [parseDigitsNat, digitVal]
    rw [this, parseDigitsNat_natDigits]
  · exact parseDigitsNat_natDigits n

theorem pad2_ne_nil (n : Nat) : pad2 n ≠ [] := by
  rw [pad2]
  split
  · simp
  · exact natDigits_ne_nil n

theorem expectNum_pad2 {n : Nat} {rest : List Char} (h : n < 100) (hrest : headNotDigit rest) :
    expectNum 2 (pad2 n ++ rest) = some (n, rest) := by
  have ht := takeDigits_exact (pad2 n) 2 rest (pad2_all_digits n) (pad2_length_le h) hrest
  simp only [expectNum]
  rw [ht]
  have hne := pad2_ne_nil n
  cases hd : pad2 n with
  | nil => exact absurd hd hne
  | cons c cs =>
    show some (parseDigitsNat (c :: cs), rest) = some (n, rest)
    rw [← hd, parseDigitsNat_pad2]

theorem natDigits_length_ge :
    ∀ k n : Nat, 10 ^ k ≤ n → k + 1 ≤ (natDigits n).length := by
  intro k
  induction k with
  | zero =>
    intro n _
    cases hd : natDigits n with
    | nil => exact absurd hd (natDigits_ne_nil n)
    | cons c cs => simp
  | succ k ih =>
    intro n h
    have hpow : (10:Nat) ^ 1 ≤ 10 ^ (k + 1) := Nat.pow_le_pow_right (by omega) (by omega)
    have h10 : 10 ≤ n := by
      have : (10:Nat) ^ 1 = 10 := by norm_num
      omega
    rw [natDigits_ge h10, List.length_append]
    have hdiv : 10 ^ k ≤ n / 10 := by
      rw [Nat.le_div_iff_mul_le (by omega)]
      calc 10 ^ k * 10 = 10 ^ (k + 1) := by ring
      _ ≤ n := h
    have := ih (n / 10) hdiv
    simp only [List.length_singleton]
    omega

/-- Models the `%Y` directive: CPython's `_strptime.TimeRE` compiles
`%Y` to exactly four digits (`\d\d\d\d`), unlike the one-to-two digit
directives. -/
def expectYear (cs : List Char) : Option (Nat × List Char) :=
  match takeDigits 4 cs with
  | (ds, rest) => if ds.length = 4 then some (parseDigitsNat ds, rest) else Option.none

theorem expectYear_exact {n : Nat} {rest : List Char} (h1 : 1000 ≤ n) (h2 : n ≤ 9999)
    (hrest : headNotDigit rest) : expectYear (natDigits n ++ rest) = some (n, rest) := by
  have e4 : (10:Nat) ^ 4 = 10000 := by norm_num
  have e3 : (10:Nat) ^ 3 = 1000 := by norm_num
  have hle := natDigits_length_le 4 n (by omega) (by omega)
  have hge := natDigits_length_ge 3 n (by omega)
  have hlen4 : (natDigits n).length = 4 := by omega
  rw [expectYear,
    takeDigits_exact (natDigits n) 4 rest (natDigits_all_digits n) (by omega) hrest]
  show (if (natDigits n).length = 4 then some (parseDigitsNat (natDigits n), rest)
    else Option.none) = some (n, rest)
  rw [if_pos hlen4, parseDigitsNat_natDigits]

/-- Models a whitespace run of the format: `_strptime` turns whitespace
in the format into `\s+`, one or more whitespace characters of the
input. -/
def expectWS : List Char → Option (List Char)
  | c :: cs => if c.isWhitespace then some (cs.dropWhile Char.isWhitespace) else Option.none
  | [] => Option.none

theorem isDigit_not_whitespace {c : Char} (h : c.isDigit = true) : c.isWhitespace = false := by
  cases hc : c.isWhitespace with
  | false => rfl
  | true =>
    have hmem : c = ' ' ∨ c = '\t' ∨ c = '\r' ∨ c = '\n' := by
      simpa [Char.isWhitespace, or_assoc] using hc
    rcases hmem with rfl | rfl | rfl | rfl <;> exact absurd h (by decide)

theorem expectWS_exact {ds rest : List Char} (hds : ∀ c ∈ ds, c.isDigit = true)
    (hne : ds ≠ []) : expectWS (' ' :: (ds ++ rest)) = some (ds ++ rest) := by
  rw [expectWS]
  rw [if_pos (by decide)]
  cases ds with
  | nil => exact absurd rfl hne
  | cons c cs =>
    have hd := hds c (List.mem_cons_self c cs)
    simp [List.dropWhile_cons, isDigit_not_whitespace hd]

/-! ## The datetime model

CPython's `datetime` is a record of civil-calendar fields.  `strptime`
validates ranges (and `datetime.__new__` rejects impossible dates such as
Feb 30 with a `ValueError`); `strftime` renders the fields back.  Day
arithmetic (`timedelta(days=k)`) goes through the proleptic-Gregorian
ordinal, as in CPython's `_ord2ymd` / `_ymd2ord`. -/

structure PyDateTime where
  year : Nat
  month : Nat
  day : Nat
  hour : Nat
  minute : Nat
  second : Nat
deriving DecidableEq, Repr

/-- Gregorian leap-year rule, as `datetime._is_leap`. -/
def isLeapYear (y : Nat) : Bool := y % 4 == 0 && (y % 100 != 0 || y % 400 == 0)

/-- Days in a month, as `datetime._days_in_month`. -/
def daysInMonth (y m : Nat) : Nat :=
  if m = 2 then (if isLeapYear y then 29 else 28)
  else if m = 4 ∨ m = 6 ∨ m = 9 ∨ m = 11 then 30 else 31

/-- The range checks `datetime.datetime` performs on construction
(`MINYEAR = 1`, `MAXYEAR = 9999`). -/
def isValidDateTime (t : PyDateTime) : Bool :=
  1 ≤ t.year && t.year ≤ 9999 && 1 ≤ t.month && t.month ≤ 12 &&
  1 ≤ t.day && t.day ≤ daysInMonth t.year t.month &&
  t.hour ≤ 23 && t.minute ≤ 59 && t.second ≤ 59

/-- Cumulative days before month `m` in a non-leap year
(`datetime._DAYS_BEFORE_MONTH`). -/
def daysBeforeMonthTable (m : Nat) : Nat :=
  match m with
  | 1 => 0 | 2 => 31 | 3 => 59 | 4 => 90 | 5 => 120 | 6 => 151
  | 7 => 181 | 8 => 212 | 9 => 243 | 10 => 273 | 11 => 304 | 12 => 334
  | _ => 0

/-- Days before Jan 1 of year `y`, as `datetime._days_before_year`. -/
def daysBeforeYear (y : Nat) : Nat :=
  (y - 1) * 365 + (y - 1) / 4 - (y - 1) / 100 + (y - 1) / 400

/-- The proleptic-Gregorian ordinal of a civil date, as
`datetime._ymd2ord` (Jan 1 of year 1 is day 1). -/
def ymd2ord (y m d : Nat) : Nat :=
  daysBeforeYear y + daysBeforeMonthTable m +
    (if 2 < m ∧ isLeapYear y then 1 else 0) + d

/-- Days in month `m` of a year whose leapness is `leap`
(`datetime._DAYS_IN_MONTH`, with the February adjustment of `_ord2ymd`). -/
def daysInMonthOfLeap (m : Nat) (leap : Bool) : Nat :=
  if m = 2 then (if leap then 29 else 28)
  else if m = 4 ∨ m = 6 ∨ m = 9 ∨ m = 11 then 30 else 31

/-- Civil date of a proleptic-Gregorian ordinal, translated from
CPython's `datetime._ord2ymd` (including its month-estimate step). -/
def ord2ymd (nOrd : Nat) : Nat × Nat × Nat :=
  let n0 := nOrd - 1
  let n400 := n0 / 146097
  let n1r := n0 % 146097
  let n100 := n1r / 36524
  let n2r := n1r % 36524
  let n4 := n2r / 1461
  let n3r := n2r % 1461
  let n1 := n3r / 365
  let n := n3r % 365
  let year := n400 * 400 + n100 * 100 + n4 * 4 + n1 + 1
  if n1 = 4 ∨ n100 = 4 then (year - 1, 12, 31)
  else
    let leap := n1 == 3 && (n4 != 24 || n100 == 3)
    let month := (n + 50) / 32
    let preceding := daysBeforeMonthTable month + (if 2 < month ∧ leap then 1 else 0)
    if n < preceding then
      let month1 := month - 1
      let preceding1 := preceding - daysInMonthOfLeap month1 leap
      (year, month1, n - preceding1 + 1)
    else (year, month, n - preceding + 1)

/-- Adding `k` whole days to a datetime: CPython normalizes
`datetime + timedelta(days=k)` through the ordinal, keeping the time of
day. -/
def addDays (t : PyDateTime) (k : Nat) : PyDateTime :=
  let p := ord2ymd (ymd2ord t.year t.month t.day + k)
  ⟨p.1, p.2.1, p.2.2, t.hour, t.minute, t.second⟩

/-- Rendering with format `%Y-%m-%d %H:%M:%S` (the `date_format_str` of
`get_url_params` and the output format of the sales-hits `Date` rewrite).
`%Y` prints the year unpadded as glibc does; every other directive is
zero-padded to two digits. -/
def fmtDateTime (t : PyDateTime) : String :=
  String.mk (natDigits t.year ++ '-' ::
    (pad2 t.month ++ '-' ::
      (pad2 t.day ++ ' ' ::
        (pad2 t.hour ++ ':' ::
          (pad2 t.minute ++ ':' :: pad2 t.second)))))

/-- Completes a parse with a `ValueError`-style range validation, as the
`datetime` constructor called by `strptime` does. -/
def finishParse (t : PyDateTime) : Option PyDateTime :=
  if isValidDateTime t then some t else Option.none

/-- Embeds `datetime.strptime(s, "%Y-%m-%d %H:%M:%S")`: `%Y` matches
exactly four digits, the other numeric directives one or two, the
format's space one or more whitespace characters; the whole input must
be consumed; the field ranges are validated. -/
def parseYmdHms (s : String) : Option PyDateTime := do
  let (y, cs) ← expectYear s.data
  let cs ← expectChar '-' cs
  let (mo, cs) ← expectNum 2 cs
  let cs ← expectChar '-' cs
  let (d, cs) ← expectNum 2 cs
  let cs ← expectWS cs
  let (h, cs) ← expectNum 2 cs
  let cs ← expectChar ':' cs
  let (mi, cs) ← expectNum 2 cs
  let cs ← expectChar ':' cs
  let (sec, cs) ← expectNum 2 cs
  if cs = [] then finishParse ⟨y, mo, d, h, mi, sec⟩ else Option.none

/-- Embeds `datetime.strptime(s, "%m/%d/%Y %H:%M")` (the sales-hits `Date` input
format); seconds default to zero. -/
def parseMdYHm (s : String) : Option PyDateTime := do
  let (mo, cs) ← expectNum 2 s.data
  let cs ← expectChar '/' cs
  let (d, cs) ← expectNum 2 cs
  let cs ← expectChar '/' cs
  let (y, cs) ← expectYear cs
  let cs ← expectWS cs
  let (h, cs) ← expectNum 2 cs
  let cs ← expectChar ':' cs
  let (mi, cs) ← expectNum 2 cs
  if cs = [] then finishParse ⟨y, mo, d, h, mi, 0⟩ else Option.none

/-- Embeds `datetime.strptime(s, "%Y-%m-%d")` (the paginator's `start_date`
format); the time of day defaults to midnight. -/
def parseYmd (s : String) : Option PyDateTime := do
  let (y, cs) ← expectYear s.data
  let cs ← expectChar '-' cs
  let (mo, cs) ← expectNum 2 cs
  let cs ← expectChar '-' cs
  let (d, cs) ← expectNum 2 cs
  if cs = [] then finishParse ⟨y, mo, d, 0, 0, 0⟩ else Option.none

theorem expectChar_cons (c : Char) (cs : List Char) : expectChar c (c :: cs) = some cs := by
  simp [expectChar]

theorem expectNum_pad2_nil {n : Nat} (h : n < 100) : expectNum 2 (pad2 n) = some (n, []) := by
  have := @expectNum_pad2 n [] h (by simp [headNotDigit])
  simpa using this

theorem parseYmdHms_fmtDateTime {t : PyDateTime} (h : isValidDateTime t = true)
    (hy : 1000 ≤ t.year) :
    parseYmdHms (fmtDateTime t) = some t := by
  obtain ⟨y, mo, d, hh, mi, s⟩ := t
  simp only [isValidDateTime, Bool.and_eq_true, decide_eq_true_eq] at h
  obtain ⟨⟨⟨⟨⟨⟨⟨⟨hy1, hy2⟩, hm1⟩, hm2⟩, hd1⟩, hd2⟩, hh1⟩, hmi1⟩, hs1⟩ := h
  have hy1000 : 1000 ≤ y := hy
  have hdm : daysInMonth y mo ≤ 31 := by
    rw [daysInMonth]
    split
    · split <;> omega
    · split <;> omega
  rw [parseYmdHms, fmtDateTime]
  show (do
    let (y', cs) ← expectYear (natDigits y ++ '-' ::
      (pad2 mo ++ '-' :: (pad2 d ++ ' ' :: (pad2 hh ++ ':' :: (pad2 mi ++ ':' :: pad2 s)))))
    let cs ← expectChar '-' cs
    let (mo', cs) ← expectNum 2 cs
    let cs ← expectChar '-' cs
    let (d', cs) ← expectNum 2 cs
    let cs ← expectWS cs
    let (h', cs) ← expectNum 2 cs
    let cs ← expectChar ':' cs
    let (mi', cs) ← expectNum 2 cs
    let cs ← expectChar ':' cs
    let (sec', cs) ← expectNum 2 cs
    if cs = [] then finishParse ⟨y', mo', d', h', mi', sec'⟩ else Option.none) = some ⟨y, mo, d, hh, mi, s⟩
  rw [expectYear_exact hy1000 (by omega) (by simp [headNotDigit])]
  simp only [Option.bind_eq_bind, Option.some_bind, expectChar_cons]
  rw [expectNum_pad2 (by omega) (by simp [headNotDigit])]
  simp only [Option.some_bind, expectChar_cons]
  rw [expectNum_pad2 (by omega) (by simp [headNotDigit])]
  simp only [Option.some_bind]
  rw [expectWS_exact (pad2_all_digits hh) (pad2_ne_nil hh)]
  simp only [Option.some_bind]
  rw [expectNum_pad2 (by omega) (by simp [headNotDigit])]
  simp only [Option.some_bind, expectChar_cons]
  rw [expectNum_pad2 (by omega) (by simp [headNotDigit])]
  simp only [Option.some_bind, expectChar_cons]
  rw [expectNum_pad2_nil (by omega)]
  simp only [Option.some_bind, if_pos rfl]
  have hv : isValidDateTime ⟨y, mo, d, hh, mi, s⟩ = true := by
    simp only [isValidDateTime, Bool.and_eq_true, decide_eq_true_eq]
    exact ⟨⟨⟨⟨⟨⟨⟨⟨hy1, hy2⟩, hm1⟩, hm2⟩, hd1⟩, hd2⟩, hh1⟩, hmi1⟩, hs1⟩
  rw [finishParse, if_pos hv]
  simp

/-! ## Python scalar values and builtin conversions

A CSV cell handed to `post_process` is a Python `str` (or `None` for a
cell `csv.DictReader` fills in for a short row).  After coercion a cell
may hold an `int` or a `float`.  `float` is modelled as an exact
rational: every numeric literal the claims mention is exactly
representable in binary, so the model and IEEE agree on them. -/

inductive PyErr where
  | keyError
  | valueError
  | attributeError
  | typeError
deriving DecidableEq, Repr

inductive Cell where
  | str : String → Cell
  | intv : Int → Cell
  | floatv : ℚ → Cell
  | nonev : Cell
deriving DecidableEq, Repr

/-- Strip leading and trailing whitespace, as Python `str.strip()` does
before `int()` / `float()` read a number (restricted to ASCII whitespace;
no input in this development contains other whitespace). -/
def trimWS (cs : List Char) : List Char :=
  ((cs.dropWhile Char.isWhitespace).reverse.dropWhile Char.isWhitespace).reverse

/-- An optional leading sign. -/
def readSign : List Char → Int × List Char
  | '+' :: cs => (1, cs)
  | '-' :: cs => (-1, cs)
  | cs => (1, cs)

/-- Python `int(s)` on a decimal string: optional surrounding whitespace,
optional sign, then a non-empty digit run (digit-group underscores are not
modelled; no input here contains them).  `none` is a `ValueError`. -/
def pyIntOfString (s : String) : Option Int :=
  let cs := trimWS s.data
  let p := readSign cs
  if p.2 ≠ [] ∧ p.2.all Char.isDigit then some (p.1 * (parseDigitsNat p.2 : Int))
  else Option.none

/-- The optional exponent part of a Python float literal (`e`/`E`, sign,
digits), as the signed integer exponent (`0` when absent). -/
def pyExp : List Char → Option Int
  | [] => some 0
  | c :: cs =>
    if c = 'e' ∨ c = 'E' then
      let p := readSign cs
      if p.2 ≠ [] ∧ p.2.all Char.isDigit then some (p.1 * (parseDigitsNat p.2 : Int))
      else Option.none
    else Option.none

/-- The rational value `sgn * (ipv.fpv) * 10^e` of a parsed decimal
literal, where `fplen` is the length of the fraction part (built with
`mkRat` so that the kernel can normalize it). -/
def floatVal (sgn : Int) (ipv fpv fplen : Nat) (e : Int) : ℚ :=
  mkRat (sgn * ((ipv * 10 ^ fplen + fpv : Nat) : Int) * ((10 ^ e.toNat : Nat) : Int))
    (10 ^ (fplen + (-e).toNat))

/-- Python `float(s)` on a finite decimal literal: optional surrounding
whitespace, optional sign, digits with an optional point (at least one
digit on one side), optional exponent.  `inf`/`nan` spellings are not
modelled — no input in this development produces them.  `none` is a
`ValueError`. -/
def pyFloatOfString (s : String) : Option ℚ :=
  let cs := trimWS s.data
  let p := readSign cs
  let ip := p.2.takeWhile Char.isDigit
  let cs1 := p.2.dropWhile Char.isDigit
  match cs1 with
  | '.' :: cs2 =>
    let fp := cs2.takeWhile Char.isDigit
    let cs3 := cs2.dropWhile Char.isDigit
    if ip = [] ∧ fp = [] then Option.none
    else (pyExp cs3).map fun e =>
      floatVal p.1 (parseDigitsNat ip) (parseDigitsNat fp) fp.length e
  | _ =>
    if ip = [] then Option.none
    else (pyExp cs1).map fun e => floatVal p.1 (parseDigitsNat ip) 0 0 e

/-- Truncation toward zero, as Python `int(float)`. -/
def ratTrunc (q : ℚ) : Int := q.num.tdiv q.den

/-- The target type handed to `set_none_or_cast` (the code passes the
builtins `int` and `float`). -/
inductive PyType where
  | intT
  | floatT
deriving DecidableEq, Repr

/-- Embeds `streams.set_none_or_cast(value, expected_type)`:

    if value == "" or value is None: return None
    elif not isinstance(value, expected_type): return expected_type(value)
    else: return value

The only exception the body can raise on our cell values is the
`ValueError` of a failed `int(str)` / `float(str)`. -/
def set_none_or_cast (v : Cell) (ty : PyType) : Except PyErr Cell :=
  if v = Cell.str "" ∨ v = Cell.nonev then Except.ok Cell.nonev
  else
    match ty with
    | PyType.intT =>
      match v with
      | Cell.intv n => Except.ok (Cell.intv n)
      | Cell.str s =>
        match pyIntOfString s with
        | some n => Except.ok (Cell.intv n)
        | Option.none => Except.error PyErr.valueError
      | Cell.floatv q => Except.ok (Cell.intv (ratTrunc q))
      | Cell.nonev => Except.ok Cell.nonev
    | PyType.floatT =>
      match v with
      | Cell.floatv q => Except.ok (Cell.floatv q)
      | Cell.str s =>
        match pyFloatOfString s with
        | some q => Except.ok (Cell.floatv q)
        | Option.none => Except.error PyErr.valueError
      | Cell.intv n => Except.ok (Cell.floatv (mkRat n 1))
      | Cell.nonev => Except.ok Cell.nonev

/-- The builtin `float(value)` called directly by the sales-hits
post-processing: `str` parses or raises `ValueError`, numbers convert,
`None` raises `TypeError`. -/
def pyFloatBuiltin (v : Cell) : Except PyErr ℚ :=
  match v with
  | Cell.str s =>
    match pyFloatOfString s with
    | some q => Except.ok q
    | Option.none => Except.error PyErr.valueError
  | Cell.floatv q => Except.ok q
  | Cell.intv n => Except.ok (mkRat n 1)
  | Cell.nonev => Except.error PyErr.typeError

/-- The currency strip of both streams:
`s.replace('$', '').replace('(', '-').replace(')', '')`.  For these
single-character patterns `str.replace` is a per-character filter/map. -/
def stripCurrency (s : String) : String :=
  String.mk ((((s.data.filter fun c => c ≠ '$').map
    fun c => if c = '(' then '-' else c).filter fun c => c ≠ ')'))

/-! ## Records and the per-stream post-processing -/

instance {ε α : Type} [DecidableEq ε] [DecidableEq α] : DecidableEq (Except ε α) := fun x y =>
  match x, y with
  | Except.ok a, Except.ok b =>
    if h : a = b then isTrue (by rw [h]) else isFalse (fun hh => h (Except.ok.inj hh))
  | Except.error e, Except.error f =>
    if h : e = f then isTrue (by rw [h]) else isFalse (fun hh => h (Except.error.inj hh))
  | Except.ok _, Except.error _ => isFalse (fun hh => Except.noConfusion hh)
  | Except.error _, Except.ok _ => isFalse (fun hh => Except.noConfusion hh)

/-- A record row: a Python dict in insertion order. -/
abbrev Row := List (String × Cell)

/-- Dict lookup `row[k]` (first binding wins; `csv.DictReader` never
produces duplicate keys). -/
def rowGet : Row → String → Option Cell
  | [], _ => Option.none
  | (k', v) :: t, k => if k' = k then some v else rowGet t k

/-- Dict assignment `row[k] = v`: overwrite in place, or append if the
key is new. -/
def rowSet : Row → String → Cell → Row
  | [], k, v => [(k, v)]
  | (k', v') :: t, k, v => if k' = k then (k, v) :: t else (k', v') :: rowSet t k v

/-- Whether a character is replaced by `re.sub("[ \\-&\\/]", "_", key)`. -/
def isSpecialChar (c : Char) : Bool := c = ' ' || c = '-' || c = '&' || c = '/'

/-- The substitution that `re.sub` applies to each character. -/
def subSpecialChar (c : Char) : Char := if isSpecialChar c then '_' else c

/-- Embeds `client.replace_special_chars(key)`: replace every space, hyphen,
ampersand and slash with an underscore. -/
def replace_special_chars (key : String) : String :=
  String.mk (key.data.map subSpecialChar)

/-- Embeds `client.sanitize_keys` restricted to a flat record (a CSV row is a
dict of scalars, so the recursive cases of `sanitize_keys` reduce to a
key rewrite that leaves every value untouched). -/
def sanitizeRow (row : Row) : Row :=
  row.map fun kv => (replace_special_chars kv.1, kv.2)

/-- One iteration of the integer loop of `SalesStream.post_process`:

    try:
        sanitized_row[int_col] = set_none_or_cast(sanitized_row[int_col], int)
    except ValueError as e:
        print(e)

A missing key raises `KeyError` before the `try` body's `set_none_or_cast`
call completes the assignment — `except ValueError` does not catch it. -/
def processIntCol (row : Row) (col : String) : Except PyErr Row :=
  match rowGet row col with
  | Option.none => Except.error PyErr.keyError
  | some v =>
    match set_none_or_cast v PyType.intT with
    | Except.ok c => Except.ok (rowSet row col c)
    | Except.error _ => Except.ok row

/-- One iteration of the float loop of `SalesStream.post_process`:

    try:
        sanitized_row[float_col] = sanitized_row[float_col].replace('$', '').replace('(', '-').replace(')', '')
        sanitized_row[float_col] = set_none_or_cast(sanitized_row[float_col], float)
    except ValueError as e:
        print(e)

The strip assignment lands before `set_none_or_cast` can raise, so a
caught `ValueError` leaves the stripped string in the row.  A non-`str`
cell has no `.replace`: the `AttributeError` is not caught. -/
def processFloatCol (row : Row) (col : String) : Except PyErr Row :=
  match rowGet row col with
  | Option.none => Except.error PyErr.keyError
  | some (Cell.str s) =>
    let row1 := rowSet row col (Cell.str (stripCurrency s))
    match set_none_or_cast (Cell.str (stripCurrency s)) PyType.floatT with
    | Except.ok c => Except.ok (rowSet row1 col c)
    | Except.error _ => Except.ok row1
  | some _ => Except.error PyErr.attributeError

/-- Embeds `SalesStream.post_process`: sanitize keys, then the integer loop over
`Merchant_Id, Item_Count, Website_Id`, then the float loop over
`Total_Commission, Incentive_Commission, Base_Commission,
Transaction_Amount` (the two literal column lists of the source,
unrolled in order). -/
def sales_post_process (row : Row) : Except PyErr Row := do
  let r0 := sanitizeRow row
  let r1 ← processIntCol r0 "Merchant_Id"
  let r2 ← processIntCol r1 "Item_Count"
  let r3 ← processIntCol r2 "Website_Id"
  let r4 ← processFloatCol r3 "Total_Commission"
  let r5 ← processFloatCol r4 "Incentive_Commission"
  let r6 ← processFloatCol r5 "Base_Commission"
  let r7 ← processFloatCol r6 "Transaction_Amount"
  Except.ok r7

/-- Embeds the `Date` rewrite of `SalesHitsStream.post_process`:

    sanitized_row['Date'] = datetime.strftime(datetime.strptime(sanitized_row['Date'], '%m/%d/%Y %H:%M'), '%Y-%m-%d %H:%M:%S')

No exception handler: a missing key is a `KeyError`, a non-string a
`TypeError` from `strptime`, an unparsable string its `ValueError` —
all uncaught. -/
def hitsDateStep (row : Row) : Except PyErr Row :=
  match rowGet row "Date" with
  | Option.none => Except.error PyErr.keyError
  | some (Cell.str d) =>
    match parseMdYHm d with
    | some t => Except.ok (rowSet row "Date" (Cell.str (fmtDateTime t)))
    | Option.none => Except.error PyErr.valueError
  | some _ => Except.error PyErr.typeError

/-- The conditional currency strip of `SalesHitsStream.post_process`:

    if 'Transaction_Amount' in sanitized_row:
        sanitized_row['Transaction_Amount'] = sanitized_row['Transaction_Amount'].replace('$', '').replace('(', '-').replace(')', '')

An absent key skips the strip; a present non-string value has no
`.replace`, an uncaught `AttributeError`. -/
def hitsStripStep (row : Row) : Except PyErr Row :=
  match rowGet row "Transaction_Amount" with
  | some (Cell.str s) =>
    Except.ok (rowSet row "Transaction_Amount" (Cell.str (stripCurrency s)))
  | some _ => Except.error PyErr.attributeError
  | Option.none => Except.ok row

/-- The guarded float conversion of `SalesHitsStream.post_process`:

    try:
        sanitized_row['Transaction_Amount'] = float(sanitized_row['Transaction_Amount'])
    except ValueError as e:
        print(e)

Only `ValueError` is caught; the lookup's `KeyError` (and a `TypeError`
from `float(None)`) propagate. -/
def hitsFloatStep (row : Row) : Except PyErr Row :=
  match rowGet row "Transaction_Amount" with
  | Option.none => Except.error PyErr.keyError
  | some v =>
    match pyFloatBuiltin v with
    | Except.ok q => Except.ok (rowSet row "Transaction_Amount" (Cell.floatv q))
    | Except.error PyErr.valueError => Except.ok row
    | Except.error e => Except.error e

/-- Embeds `SalesHitsStream.post_process`: sanitize keys, then the three
statements above in source order. -/
def sales_hits_post_process (row : Row) : Except PyErr Row := do
  let r0 := sanitizeRow row
  let r1 ← hitsDateStep r0
  let r2 ← hitsStripStep r1
  hitsFloatStep r2

/-! ## Characterizing the post-processing

`procIntCell` / `procFloatStrCell` are the per-cell effect of one loop
iteration of `SalesStream.post_process` once the `try`/`except
ValueError` is taken into account; the unroll lemmas below show the two
`post_process` embeddings equal to their field-wise description. -/

/-- The caught int coercion: `set_none_or_cast(v, int)`, keeping the old
value on `ValueError`. -/
def procIntCell (v : Cell) : Cell :=
  match set_none_or_cast v PyType.intT with
  | Except.ok c => c
  | Except.error _ => v

/-- The caught currency-to-float coercion of a string cell: strip, then
`set_none_or_cast(-, float)`, keeping the stripped string on
`ValueError`. -/
def procFloatStrCell (s : String) : Cell :=
  match set_none_or_cast (Cell.str (stripCurrency s)) PyType.floatT with
  | Except.ok c => c
  | Except.error _ => Cell.str (stripCurrency s)

theorem rowSet_self_of_get :
    ∀ row : Row, ∀ k : String, ∀ v : Cell, rowGet row k = some v → rowSet row k v = row := by
  intro row
  induction row with
  | nil => intro k v h; exact absurd h (by simp [rowGet])
  | cons kv t ih =>
    intro k v h
    obtain ⟨k', v'⟩ := kv
    by_cases hk : k' = k
    · subst hk
      have hv : v' = v := by simpa [rowGet] using h
      subst hv
      simp [rowSet]
    · simp only [rowGet, if_neg hk] at h
      simp [rowSet, if_neg hk, ih k v h]

theorem rowGet_rowSet_ne :
    ∀ row : Row, ∀ k k' : String, ∀ v : Cell, k ≠ k' →
      rowGet (rowSet row k v) k' = rowGet row k' := by
  intro row
  induction row with
  | nil => intro k k' v h; simp [rowGet, rowSet, if_neg h]
  | cons kv t ih =>
    intro k k' v h
    obtain ⟨k0, v0⟩ := kv
    by_cases hk : k0 = k
    · subst hk
      simp [rowSet, rowGet, if_neg h]
    · simp only [rowSet, if_neg hk, rowGet]
      by_cases hk' : k0 = k'
      · simp [if_pos hk']
      · simp [if_neg hk', ih k k' v h]

theorem rowSet_rowSet_same :
    ∀ row : Row, ∀ k : String, ∀ a b : Cell,
      rowSet (rowSet row k a) k b = rowSet row k b := by
  intro row
  induction row with
  | nil => intro k a b; simp [rowSet]
  | cons kv t ih =>
    intro k a b
    obtain ⟨k0, v0⟩ := kv
    by_cases hk : k0 = k
    · subst hk
      simp [rowSet]
    · simp [rowSet, if_neg hk, ih]

theorem processIntCol_spec {row : Row} {col : String} {v : Cell}
    (h : rowGet row col = some v) :
    processIntCol row col = Except.ok (rowSet row col (procIntCell v)) := by
  rw [processIntCol, h]
  cases hc : set_none_or_cast v PyType.intT with
  | ok c => simp [procIntCell, hc]
  | error e => simp [procIntCell, hc, rowSet_self_of_get row col v h]

theorem processFloatCol_spec {row : Row} {col : String} {s : String}
    (h : rowGet row col = some (Cell.str s)) :
    processFloatCol row col = Except.ok (rowSet row col (procFloatStrCell s)) := by
  rw [processFloatCol, h]
  cases hc : set_none_or_cast (Cell.str (stripCurrency s)) PyType.floatT with
  | ok c => simp [procFloatStrCell, hc, rowSet_rowSet_same]
  | error e => simp [procFloatStrCell, hc]

/-- A sales row carrying the seven processed columns (`csv.DictReader`
yields one binding per CSV header; the claims concern these columns). -/
def mkSalesRow (mi ic wid tc inc bc ta : Cell) : Row :=
  [("Merchant_Id", mi), ("Item_Count", ic), ("Website_Id", wid),
   ("Total_Commission", tc), ("Incentive_Commission", inc),
   ("Base_Commission", bc), ("Transaction_Amount", ta)]

theorem sanitizeRow_mkSalesRow (mi ic wid tc inc bc ta : Cell) :
    sanitizeRow (mkSalesRow mi ic wid tc inc bc ta) = mkSalesRow mi ic wid tc inc bc ta := by
  have h1 : replace_special_chars "Merchant_Id" = "Merchant_Id" := by decide
  have h2 : replace_special_chars "Item_Count" = "Item_Count" := by decide
  have h3 : replace_special_chars "Website_Id" = "Website_Id" := by decide
  have h4 : replace_special_chars "Total_Commission" = "Total_Commission" := by decide
  have h5 : replace_special_chars "Incentive_Commission" = "Incentive_Commission" := by decide
  have h6 : replace_special_chars "Base_Commission" = "Base_Commission" := by decide
  have h7 : replace_special_chars "Transaction_Amount" = "Transaction_Amount" := by decide
  simp [sanitizeRow, mkSalesRow, h1, h2, h3, h4, h5, h6, h7]

theorem exceptBind_ok {ε α β : Type} (a : α) (f : α → Except ε β) :
    (Bind.bind (Except.ok a) f : Except ε β) = f a := rfl

theorem exceptBind_err {ε α β : Type} (e : ε) (f : α → Except ε β) :
    (Bind.bind (Except.error e) f : Except ε β) = Except.error e := rfl

theorem sales_post_unroll (mi ic wid : Cell) (tc inc bc ta : String) :
    sales_post_process
        (mkSalesRow mi ic wid (Cell.str tc) (Cell.str inc) (Cell.str bc) (Cell.str ta)) =
      Except.ok (mkSalesRow (procIntCell mi) (procIntCell ic) (procIntCell wid)
        (procFloatStrCell tc) (procFloatStrCell inc) (procFloatStrCell bc)
        (procFloatStrCell ta)) := by
  rw [sales_post_process, sanitizeRow_mkSalesRow]
  rw [processIntCol_spec (show rowGet (mkSalesRow mi ic wid (Cell.str tc) (Cell.str inc)
    (Cell.str bc) (Cell.str ta)) "Merchant_Id" = some mi by simp [mkSalesRow, rowGet])]
  rw [show rowSet (mkSalesRow mi ic wid (Cell.str tc) (Cell.str inc) (Cell.str bc)
    (Cell.str ta)) "Merchant_Id" (procIntCell mi) = mkSalesRow (procIntCell mi) ic wid
    (Cell.str tc) (Cell.str inc) (Cell.str bc) (Cell.str ta) by simp [mkSalesRow, rowSet],
    exceptBind_ok]
  rw [processIntCol_spec (show rowGet (mkSalesRow (procIntCell mi) ic wid (Cell.str tc)
    (Cell.str inc) (Cell.str bc) (Cell.str ta)) "Item_Count" = some ic by
      simp [mkSalesRow, rowGet])]
  rw [show rowSet (mkSalesRow (procIntCell mi) ic wid (Cell.str tc) (Cell.str inc)
    (Cell.str bc) (Cell.str ta)) "Item_Count" (procIntCell ic) = mkSalesRow (procIntCell mi)
    (procIntCell ic) wid (Cell.str tc) (Cell.str inc) (Cell.str bc) (Cell.str ta) by
      simp [mkSalesRow, rowSet], exceptBind_ok]
  rw [processIntCol_spec (show rowGet (mkSalesRow (procIntCell mi) (procIntCell ic) wid
    (Cell.str tc) (Cell.str inc) (Cell.str bc) (Cell.str ta)) "Website_Id" = some wid by
      simp [mkSalesRow, rowGet])]
  rw [show rowSet (mkSalesRow (procIntCell mi) (procIntCell ic) wid (Cell.str tc)
    (Cell.str inc) (Cell.str bc) (Cell.str ta)) "Website_Id" (procIntCell wid) =
    mkSalesRow (procIntCell mi) (procIntCell ic) (procIntCell wid) (Cell.str tc)
    (Cell.str inc) (Cell.str bc) (Cell.str ta) by simp [mkSalesRow, rowSet], exceptBind_ok]
  rw [processFloatCol_spec (show rowGet (mkSalesRow (procIntCell mi) (procIntCell ic)
    (procIntCell wid) (Cell.str tc) (Cell.str inc) (Cell.str bc) (Cell.str ta))
    "Total_Commission" = some (Cell.str tc) by simp [mkSalesRow, rowGet])]
  rw [show rowSet (mkSalesRow (procIntCell mi) (procIntCell ic) (procIntCell wid)
    (Cell.str tc) (Cell.str inc) (Cell.str bc) (Cell.str ta)) "Total_Commission"
    (procFloatStrCell tc) = mkSalesRow (procIntCell mi) (procIntCell ic) (procIntCell wid)
    (procFloatStrCell tc) (Cell.str inc) (Cell.str bc) (Cell.str ta) by
      simp [mkSalesRow, rowSet], exceptBind_ok]
  rw [processFloatCol_spec (show rowGet (mkSalesRow (procIntCell mi) (procIntCell ic)
    (procIntCell wid) (procFloatStrCell tc) (Cell.str inc) (Cell.str bc) (Cell.str ta))
    "Incentive_Commission" = some (Cell.str inc) by simp [mkSalesRow, rowGet])]
  rw [show rowSet (mkSalesRow (procIntCell mi) (procIntCell ic) (procIntCell wid)
    (procFloatStrCell tc) (Cell.str inc) (Cell.str bc) (Cell.str ta)) "Incentive_Commission"
    (procFloatStrCell inc) = mkSalesRow (procIntCell mi) (procIntCell ic) (procIntCell wid)
    (procFloatStrCell tc) (procFloatStrCell inc) (Cell.str bc) (Cell.str ta) by
      simp [mkSalesRow, rowSet], exceptBind_ok]
  rw [processFloatCol_spec (show rowGet (mkSalesRow (procIntCell mi) (procIntCell ic)
    (procIntCell wid) (procFloatStrCell tc) (procFloatStrCell inc) (Cell.str bc)
    (Cell.str ta)) "Base_Commission" = some (Cell.str bc) by simp [mkSalesRow, rowGet])]
  rw [show rowSet (mkSalesRow (procIntCell mi) (procIntCell ic) (procIntCell wid)
    (procFloatStrCell tc) (procFloatStrCell inc) (Cell.str bc) (Cell.str ta))
    "Base_Commission" (procFloatStrCell bc) = mkSalesRow (procIntCell mi) (procIntCell ic)
    (procIntCell wid) (procFloatStrCell tc) (procFloatStrCell inc) (procFloatStrCell bc)
    (Cell.str ta) by simp [mkSalesRow, rowSet], exceptBind_ok]
  rw [processFloatCol_spec (show rowGet (mkSalesRow (procIntCell mi) (procIntCell ic)
    (procIntCell wid) (procFloatStrCell tc) (procFloatStrCell inc) (procFloatStrCell bc)
    (Cell.str ta)) "Transaction_Amount" = some (Cell.str ta) by simp [mkSalesRow, rowGet])]
  rw [show rowSet (mkSalesRow (procIntCell mi) (procIntCell ic) (procIntCell wid)
    (procFloatStrCell tc) (procFloatStrCell inc) (procFloatStrCell bc) (Cell.str ta))
    "Transaction_Amount" (procFloatStrCell ta) = mkSalesRow (procIntCell mi)
    (procIntCell ic) (procIntCell wid) (procFloatStrCell tc) (procFloatStrCell inc)
    (procFloatStrCell bc) (procFloatStrCell ta) by simp [mkSalesRow, rowSet], exceptBind_ok]

/-- A sales-hits row carrying the processed `Date` and
`Transaction_Amount` columns plus a representative untouched column. -/
def mkHitsRow (dv mv tav : Cell) : Row :=
  [("Date", dv), ("Merchant", mv), ("Transaction_Amount", tav)]

theorem sanitizeRow_mkHitsRow (dv mv tav : Cell) :
    sanitizeRow (mkHitsRow dv mv tav) = mkHitsRow dv mv tav := by
  have h1 : replace_special_chars "Date" = "Date" := by decide
  have h2 : replace_special_chars "Merchant" = "Merchant" := by decide
  have h3 : replace_special_chars "Transaction_Amount" = "Transaction_Amount" := by decide
  simp [sanitizeRow, mkHitsRow, h1, h2, h3]

theorem hits_post_unroll (d s : String) (mv : Cell) :
    sales_hits_post_process (mkHitsRow (Cell.str d) mv (Cell.str s)) =
      match parseMdYHm d with
      | Option.none => Except.error PyErr.valueError
      | some t =>
        match pyFloatOfString (stripCurrency s) with
        | some q => Except.ok (mkHitsRow (Cell.str (fmtDateTime t)) mv (Cell.floatv q))
        | Option.none =>
          Except.ok (mkHitsRow (Cell.str (fmtDateTime t)) mv (Cell.str (stripCurrency s)))
      := by
  cases hp : parseMdYHm d with
  | none =>
    rw [sales_hits_post_process, sanitizeRow_mkHitsRow]
    simp [hitsDateStep, mkHitsRow, rowGet, hp, exceptBind_err]
  | some t =>
    cases hf : pyFloatOfString (stripCurrency s) with
    | none =>
      rw [sales_hits_post_process, sanitizeRow_mkHitsRow]
      simp [hitsDateStep, hitsStripStep, hitsFloatStep, pyFloatBuiltin, mkHitsRow,
        rowGet, rowSet, hp, hf, exceptBind_ok, exceptBind_err]
    | some q =>
      rw [sales_hits_post_process, sanitizeRow_mkHitsRow]
      simp [hitsDateStep, hitsStripStep, hitsFloatStep, pyFloatBuiltin, mkHitsRow,
        rowGet, rowSet, hp, hf, exceptBind_ok, exceptBind_err]

/-! ## The day-chunk paginator

`client.DayChunkPaginator` holds three fields: `_value` (a datetime
cursor, initially `strptime(start_date, "%Y-%m-%d")`, i.e. midnight of
the start date), `_end` (`datetime.today()`, the construction instant
including its time of day) and `_increment`.  The paginator only ever
compares instants and adds whole-day `timedelta`s, so instants are
embedded as integer second counts on the timeline — `datetime` order and
`timedelta` addition coincide with integer order and addition under
this embedding (`toSeconds`). -/

/-- The timeline position of a civil datetime, in seconds: the civil
order of CPython `datetime` comparison is the numeric order of this
count. -/
def toSeconds (t : PyDateTime) : Int :=
  86400 * (ymd2ord t.year t.month t.day : Int) +
    3600 * (t.hour : Int) + 60 * (t.minute : Int) + (t.second : Int)

structure DayChunkPaginator where
  current_value : Int
  end_date : Int
  increment : Int
deriving DecidableEq, Repr

namespace DayChunkPaginator

/-- Embeds `DayChunkPaginator.__init__(start_date, increment)`:
`_value = strptime(start_date, "%Y-%m-%d")` (a `ValueError` on a bad
string propagates, hence `Option`), `_end = datetime.today()` — the
`today` argument makes the clock read explicit — and the increment. -/
def init (start_date : String) (today : Int) (increment : Int) :
    Option DayChunkPaginator :=
  (parseYmd start_date).map fun d =>
    { current_value := toSeconds d, end_date := today, increment := increment }

/-- Embeds `has_more(self, response)`: `self.current_value < self.end_date`,
for a response argument of any type whatsoever. -/
def has_more {ρ : Type} (p : DayChunkPaginator) (response : ρ) : Bool :=
  p.current_value < p.end_date

/-- Embeds `get_next(self, response)`:
`current_value + timedelta(days=increment) if has_more(response) else None`. -/
def get_next {ρ : Type} (p : DayChunkPaginator) (response : ρ) : Option Int :=
  if p.has_more response then some (p.current_value + 86400 * p.increment) else Option.none

/-- One advance of the SDK fetch loop: `BaseAPIPaginator.advance` stores
`get_next`'s value as the new `_value` (taken while `has_more` holds);
`_end` and `_increment` are untouched. -/
def advance (p : DayChunkPaginator) : DayChunkPaginator :=
  { p with current_value := p.current_value + 86400 * p.increment }

theorem advance_iterate (p : DayChunkPaginator) :
    ∀ n : Nat, (advance^[n] p).current_value = p.current_value + n * (86400 * p.increment)
      ∧ (advance^[n] p).end_date = p.end_date
      ∧ (advance^[n] p).increment = p.increment := by
  intro n
  induction n with
  | zero => simp
  | succ n ih =>
    obtain ⟨h1, h2, h3⟩ := ih
    rw [Function.iterate_succ_apply']
    refine ⟨?_, ?_, ?_⟩
    · show (advance^[n] p).current_value + 86400 * (advance^[n] p).increment = _
      rw [h1, h3]
      push_cast
      ring
    · exact h2
    · exact h3

end DayChunkPaginator

/-! ## `get_url_params`

`TapAvantlinkStream.get_url_params` builds the query dictionary; its
`next_page_token` is a datetime (the paginator's value).  The token is
rendered with `strftime("%Y-%m-%d %H:%M:%S")`; the rendering is never
the empty string, so the `if next_page_date:` truthiness test always
takes the date branch, which re-parses the rendering with `strptime`,
adds `timedelta(days=28)` and renders the end. -/

structure StreamConfig where
  publisher_id : String
  auth_token : String
  report_id : String
  replication_key : Option String
deriving DecidableEq, Repr

/-- Embeds `TapAvantlinkStream.get_url_params(context, next_page_token)`.  The
`strptime` of an unparsable rendering would raise (`Except`); the fixed
params, the conditional date params and the conditional sort params are
assembled in source order. -/
def get_url_params (cfg : StreamConfig) (next_page_token : PyDateTime) :
    Except PyErr (List (String × String)) := do
  let base : List (String × String) :=
    [("module", "AffiliateReport"), ("affiliate_id", cfg.publisher_id),
     ("auth_key", cfg.auth_token), ("report_id", cfg.report_id),
     ("website_id", "0"), ("merchant_id", "0"), ("output", "csv")]
  let next_page_date := fmtDateTime next_page_token
  let params ←
    if next_page_date ≠ "" then
      match parseYmdHms next_page_date with
      | some t2 =>
        Except.ok (base ++ [("date_begin", next_page_date),
          ("date_end", fmtDateTime (addDays t2 28))])
      | Option.none => Except.error PyErr.valueError
    else Except.ok base
  match cfg.replication_key with
  | some k => Except.ok (params ++ [("sort", "asc"), ("order_by", k)])
  | Option.none => Except.ok params

theorem fmtDateTime_ne_empty (t : PyDateTime) : fmtDateTime t ≠ "" := by
  rw [fmtDateTime]
  intro h
  have : (natDigits t.year ++ '-' ::
      (pad2 t.month ++ '-' ::
        (pad2 t.day ++ ' ' ::
          (pad2 t.hour ++ ':' ::
            (pad2 t.minute ++ ':' :: pad2 t.second))))) = ([] : List Char) :=
    congrArg String.data h
  cases hd : natDigits t.year with
  | nil => exact natDigits_ne_nil t.year hd
  | cons c cs => rw [hd] at this; simp at this

/-- The date window of every built request: `date_begin` is the rendered
token, `date_end` the rendering of the token plus exactly 28 days, with
no reference to the current date (no clamping). -/
theorem get_url_params_spec (cfg : StreamConfig) (t : PyDateTime)
    (hv : isValidDateTime t = true) (hy : 1000 ≤ t.year) :
    get_url_params cfg t = Except.ok
      ([("module", "AffiliateReport"), ("affiliate_id", cfg.publisher_id),
        ("auth_key", cfg.auth_token), ("report_id", cfg.report_id),
        ("website_id", "0"), ("merchant_id", "0"), ("output", "csv"),
        ("date_begin", fmtDateTime t), ("date_end", fmtDateTime (addDays t 28))] ++
        (match cfg.replication_key with
         | some k => [("sort", "asc"), ("order_by", k)]
         | Option.none => [])) := by
  rw [get_url_params]
  simp only [if_pos (fmtDateTime_ne_empty t), parseYmdHms_fmtDateTime hv hy, exceptBind_ok]
  cases cfg.replication_key with
  | none => simp
  | some k => simp

/-! ## `sanitize_keys` on nested structures

`client.sanitize_keys` recurses through dicts and lists and returns any
other value unchanged.  `PyJson` is the shape of the JSON-like values it
can meet: string, int, float, bool and `None` scalars, dicts in
insertion order, and lists. -/

inductive PyJson where
  | str : String → PyJson
  | intv : Int → PyJson
  | floatv : ℚ → PyJson
  | boolv : Bool → PyJson
  | nonev : PyJson
  | dict : List (String × PyJson) → PyJson
  | arr : List PyJson → PyJson

/-- Dict assignment as performed by the comprehension that
`sanitize_keys` builds its result with: inserting a key that is already
present overwrites the value at the key's first position, inserting a
new key appends it — Python dict insertion-order semantics, under which
two distinct keys that sanitize to the same string leave only the later
entry's value. -/
def dictInsert : List (String × PyJson) → String → PyJson → List (String × PyJson)
  | [], k, v => [(k, v)]
  | (k', v') :: t, k, v => if k' = k then (k, v) :: t else (k', v') :: dictInsert t k v

mutual

/-- Embeds `client.sanitize_keys(value)`: a dict comprehension builds a
new dict entry by entry with every key passed through
`replace_special_chars` and every value sanitized recursively (keys
that collide after sanitization overwrite, per `dictInsert`), a list
gets every element sanitized recursively, anything else is returned
unchanged. -/
def sanitize_keys : PyJson → PyJson
  | PyJson.dict kvs => PyJson.dict (sanitizeDictGo kvs [])
  | PyJson.arr vs => PyJson.arr (sanitizeArrEntries vs)
  | PyJson.str s => PyJson.str s
  | PyJson.intv n => PyJson.intv n
  | PyJson.floatv q => PyJson.floatv q
  | PyJson.boolv b => PyJson.boolv b
  | PyJson.nonev => PyJson.nonev

/-- The dict comprehension of `sanitize_keys`: sanitize and insert each
entry in source order into the dict built so far. -/
def sanitizeDictGo : List (String × PyJson) → List (String × PyJson) → List (String × PyJson)
  | [], acc => acc
  | (k, v) :: t, acc =>
    sanitizeDictGo t (dictInsert acc (replace_special_chars k) (sanitize_keys v))

/-- The list comprehension of `sanitize_keys`, element by element. -/
def sanitizeArrEntries : List PyJson → List PyJson
  | [] => []
  | v :: t => sanitize_keys v :: sanitizeArrEntries t

end

mutual

/-- Every key anywhere in the value is free of the four replaced
characters. -/
def keysClean : PyJson → Bool
  | PyJson.dict kvs => keysCleanDict kvs
  | PyJson.arr vs => keysCleanArr vs
  | PyJson.str _ => true
  | PyJson.intv _ => true
  | PyJson.floatv _ => true
  | PyJson.boolv _ => true
  | PyJson.nonev => true

def keysCleanDict : List (String × PyJson) → Bool
  | [] => true
  | (k, v) :: t => k.data.all (fun c => !isSpecialChar c) && keysClean v && keysCleanDict t

def keysCleanArr : List PyJson → Bool
  | [] => true
  | v :: t => keysClean v && keysCleanArr t

end

/-- The keys of a dict entry list, in order. -/
def keysOf (l : List (String × PyJson)) : List String := l.map Prod.fst

theorem keysOf_nil : keysOf [] = [] := rfl

theorem keysOf_cons (k : String) (v : PyJson) (t : List (String × PyJson)) :
    keysOf ((k, v) :: t) = k :: keysOf t := rfl

theorem keysOf_append (l₁ l₂ : List (String × PyJson)) :
    keysOf (l₁ ++ l₂) = keysOf l₁ ++ keysOf l₂ := by
  simp [keysOf]

theorem subSpecialChar_not_special (c : Char) : isSpecialChar (subSpecialChar c) = false := by
  rw [subSpecialChar]
  by_cases h : isSpecialChar c = true
  · rw [if_pos h]; decide
  · rw [if_neg h]
    exact Bool.not_eq_true _ |>.mp h

theorem subSpecialChar_idem (c : Char) : subSpecialChar (subSpecialChar c) = subSpecialChar c := by
  by_cases h : isSpecialChar c = true
  · have h1 : subSpecialChar c = '_' := by rw [subSpecialChar, if_pos h]
    rw [h1]
    decide
  · have h1 : subSpecialChar c = c := by rw [subSpecialChar, if_neg h]
    rw [h1]
    exact h1

theorem replace_special_chars_clean (k : String) :
    (replace_special_chars k).data.all (fun c => !isSpecialChar c) = true := by
  rw [replace_special_chars]
  show (k.data.map subSpecialChar).all (fun c => !isSpecialChar c) = true
  rw [List.all_eq_true]
  intro c hc
  obtain ⟨c0, _, rfl⟩ := List.mem_map.mp hc
  simp [subSpecialChar_not_special]

theorem replace_special_chars_idem (k : String) :
    replace_special_chars (replace_special_chars k) = replace_special_chars k := by
  rw [replace_special_chars, replace_special_chars]
  show String.mk ((k.data.map subSpecialChar).map subSpecialChar) = _
  rw [List.map_map]
  have : subSpecialChar ∘ subSpecialChar = subSpecialChar := by
    funext c
    exact subSpecialChar_idem c

  rw [this]

theorem keysCleanDict_dictInsert :
    ∀ acc : List (String × PyJson), ∀ k : String, ∀ v : PyJson,
      keysCleanDict acc = true → k.data.all (fun c => !isSpecialChar c) = true →
      keysClean v = true → keysCleanDict (dictInsert acc k v) = true := by
  intro acc
  induction acc with
  | nil =>
    intro k v _ hk hv
    rw [dictInsert, keysCleanDict, hk, hv, keysCleanDict]
    rfl
  | cons hd t ih =>
    intro k v hacc hk hv
    obtain ⟨k', v'⟩ := hd
    rw [keysCleanDict] at hacc
    simp only [Bool.and_eq_true] at hacc
    obtain ⟨⟨hk', hv'⟩, ht⟩ := hacc
    rw [dictInsert]
    by_cases h : k' = k
    · rw [if_pos h, keysCleanDict, hk, hv, ht]
      rfl
    · rw [if_neg h, keysCleanDict, hk', hv', ih k v ht hk hv]
      rfl

mutual

theorem keysClean_sanitize : ∀ v : PyJson, keysClean (sanitize_keys v) = true
  | PyJson.str s => by rw [sanitize_keys, keysClean]
  | PyJson.intv n => by rw [sanitize_keys, keysClean]
  | PyJson.floatv q => by rw [sanitize_keys, keysClean]
  | PyJson.boolv b => by rw [sanitize_keys, keysClean]
  | PyJson.nonev => by rw [sanitize_keys, keysClean]
  | PyJson.dict kvs => by
    rw [sanitize_keys, keysClean]
    exact keysClean_sanitizeGo kvs [] (by rw [keysCleanDict])
  | PyJson.arr vs => by rw [sanitize_keys, keysClean]; exact keysClean_sanitizeArr vs

theorem keysClean_sanitizeGo :
    ∀ kvs acc : List (String × PyJson),
      keysCleanDict acc = true → keysCleanDict (sanitizeDictGo kvs acc) = true
  | [], acc, h => by rw [sanitizeDictGo]; exact h
  | (k, v) :: t, acc, h => by
    rw [sanitizeDictGo]
    exact keysClean_sanitizeGo t _
      (keysCleanDict_dictInsert acc _ _ h (replace_special_chars_clean k)
        (keysClean_sanitize v))

theorem keysClean_sanitizeArr :
    ∀ vs : List PyJson, keysCleanArr (sanitizeArrEntries vs) = true
  | [] => by rw [sanitizeArrEntries, keysCleanArr]
  | v :: t => by
    rw [sanitizeArrEntries, keysCleanArr, keysClean_sanitize v, keysClean_sanitizeArr t]
    rfl

end

/-- An entry already in sanitized form: its key is fixed by
`replace_special_chars` and its value by `sanitize_keys`. -/
def FixedEntry (kv : String × PyJson) : Prop :=
  replace_special_chars kv.1 = kv.1 ∧ sanitize_keys kv.2 = kv.2

theorem dictInsert_fixed_all :
    ∀ acc : List (String × PyJson), ∀ k : String, ∀ v : PyJson,
      (∀ kv ∈ acc, FixedEntry kv) → FixedEntry (k, v) →
      ∀ kv ∈ dictInsert acc k v, FixedEntry kv := by
  intro acc
  induction acc with
  | nil =>
    intro k v _ hkv kv hmem
    rw [dictInsert, List.mem_singleton] at hmem
    subst hmem
    exact hkv
  | cons hd t ih =>
    intro k v hacc hkv kv hmem
    obtain ⟨k', v'⟩ := hd
    rw [dictInsert] at hmem
    by_cases h : k' = k
    · rw [if_pos h] at hmem
      rcases List.mem_cons.mp hmem with rfl | hm
      · exact hkv
      · exact hacc _ (List.mem_cons_of_mem _ hm)
    · rw [if_neg h] at hmem
      rcases List.mem_cons.mp hmem with rfl | hm
      · exact hacc _ (List.mem_cons_self _ _)
      · exact ih k v (fun x hx => hacc x (List.mem_cons_of_mem _ hx)) hkv _ hm

theorem mem_keysOf_dictInsert :
    ∀ acc : List (String × PyJson), ∀ k x : String, ∀ v : PyJson,
      x ∈ keysOf (dictInsert acc k v) → x = k ∨ x ∈ keysOf acc := by
  intro acc
  induction acc with
  | nil =>
    intro k x v h
    rw [dictInsert, keysOf_cons, keysOf_nil, List.mem_singleton] at h
    exact Or.inl h
  | cons hd t ih =>
    intro k x v h
    obtain ⟨k', v'⟩ := hd
    rw [dictInsert] at h
    by_cases hk : k' = k
    · rw [if_pos hk, keysOf_cons] at h
      rw [keysOf_cons]
      rcases List.mem_cons.mp h with rfl | hm
      · exact Or.inl rfl
      · exact Or.inr (List.mem_cons_of_mem _ hm)
    · rw [if_neg hk, keysOf_cons] at h
      rw [keysOf_cons]
      rcases List.mem_cons.mp h with rfl | hm
      · exact Or.inr (List.mem_cons_self _ _)
      · rcases ih k x v hm with h1 | h1
        · exact Or.inl h1
        · exact Or.inr (List.mem_cons_of_mem _ h1)

theorem nodup_dictInsert :
    ∀ acc : List (String × PyJson), ∀ k : String, ∀ v : PyJson,
      (keysOf acc).Nodup → (keysOf (dictInsert acc k v)).Nodup := by
  intro acc
  induction acc with
  | nil =>
    intro k v _
    rw [dictInsert, keysOf_cons, keysOf_nil]
    simp
  | cons hd t ih =>
    intro k v hnd
    obtain ⟨k', v'⟩ := hd
    rw [keysOf_cons, List.nodup_cons] at hnd
    obtain ⟨hk', hnt⟩ := hnd
    rw [dictInsert]
    by_cases h : k' = k
    · rw [if_pos h]
      subst h
      rw [keysOf_cons, List.nodup_cons]
      exact ⟨hk', hnt⟩
    · rw [if_neg h]
      rw [keysOf_cons, List.nodup_cons]
      refine ⟨?_, ih k v hnt⟩
      intro hmem
      rcases mem_keysOf_dictInsert t k k' v hmem with rfl | hm
      · exact h rfl
      · exact hk' hm

theorem nodup_sanitizeDictGo :
    ∀ kvs acc : List (String × PyJson),
      (keysOf acc).Nodup → (keysOf (sanitizeDictGo kvs acc)).Nodup := by
  intro kvs
  induction kvs with
  | nil => intro acc h; rw [sanitizeDictGo]; exact h
  | cons hd t ih =>
    intro acc h
    obtain ⟨k, v⟩ := hd
    rw [sanitizeDictGo]
    exact ih _ (nodup_dictInsert acc _ _ h)

theorem dictInsert_fresh :
    ∀ acc : List (String × PyJson), ∀ k : String, ∀ v : PyJson,
      k ∉ keysOf acc → dictInsert acc k v = acc ++ [(k, v)] := by
  intro acc
  induction acc with
  | nil => intro k v _; rfl
  | cons hd t ih =>
    intro k v hk
    obtain ⟨k', v'⟩ := hd
    rw [keysOf_cons, List.mem_cons] at hk
    push_neg at hk
    have hne : ¬(k' = k) := fun h => hk.1 h.symm
    rw [dictInsert, if_neg hne, ih k v hk.2]
    rfl

theorem sanitizeDictGo_fixed :
    ∀ L acc : List (String × PyJson),
      (∀ kv ∈ L, FixedEntry kv) → (keysOf L).Nodup →
      (∀ x ∈ keysOf L, x ∉ keysOf acc) →
      sanitizeDictGo L acc = acc ++ L := by
  intro L
  induction L with
  | nil =>
    intro acc _ _ _
    rw [sanitizeDictGo, List.append_nil]
  | cons hd t ih =>
    intro acc hfix hnd hdisj
    obtain ⟨k, v⟩ := hd
    have hk : replace_special_chars k = k := (hfix (k, v) (List.mem_cons_self _ _)).1
    have hv : sanitize_keys v = v := (hfix (k, v) (List.mem_cons_self _ _)).2
    rw [sanitizeDictGo, hk, hv]
    have hfresh : k ∉ keysOf acc := hdisj k (by rw [keysOf_cons]; exact List.mem_cons_self _ _)
    rw [dictInsert_fresh acc k v hfresh]
    rw [keysOf_cons, List.nodup_cons] at hnd
    have hdisj2 : ∀ x ∈ keysOf t, x ∉ keysOf (acc ++ [(k, v)]) := by
      intro x hx
      rw [keysOf_append, List.mem_append]
      push_neg
      refine ⟨hdisj x (by rw [keysOf_cons]; exact List.mem_cons_of_mem _ hx), ?_⟩
      rw [keysOf_cons, keysOf_nil, List.mem_singleton]
      intro h
      subst h
      exact hnd.1 hx
    rw [ih (acc ++ [(k, v)]) (fun kv hkv => hfix kv (List.mem_cons_of_mem _ hkv)) hnd.2 hdisj2,
      List.append_assoc]
    rfl

mutual

theorem sanitize_idem_aux : ∀ v : PyJson, sanitize_keys (sanitize_keys v) = sanitize_keys v
  | PyJson.str s => by simp [sanitize_keys]
  | PyJson.intv n => by simp [sanitize_keys]
  | PyJson.floatv q => by simp [sanitize_keys]
  | PyJson.boolv b => by simp [sanitize_keys]
  | PyJson.nonev => by simp [sanitize_keys]
  | PyJson.dict kvs => by
    rw [sanitize_keys, sanitize_keys]
    have hfix : ∀ kv ∈ sanitizeDictGo kvs [], FixedEntry kv :=
      sanitize_fixed_go kvs [] (fun kv h => absurd h (List.not_mem_nil kv))
    have hnd : (keysOf (sanitizeDictGo kvs [])).Nodup :=
      nodup_sanitizeDictGo kvs [] List.nodup_nil
    have hdisj : ∀ x ∈ keysOf (sanitizeDictGo kvs []),
        x ∉ keysOf ([] : List (String × PyJson)) :=
      fun x _ h => absurd h (List.not_mem_nil x)
    rw [sanitizeDictGo_fixed _ _ hfix hnd hdisj, List.nil_append]
  | PyJson.arr vs => by
    rw [sanitize_keys, sanitize_keys, sanitize_idem_arr vs]

theorem sanitize_idem_arr :
    ∀ vs : List PyJson,
      sanitizeArrEntries (sanitizeArrEntries vs) = sanitizeArrEntries vs
  | [] => by simp [sanitizeArrEntries]
  | v :: t => by
    rw [sanitizeArrEntries, sanitizeArrEntries, sanitize_idem_aux v, sanitize_idem_arr t]

theorem sanitize_fixed_go :
    ∀ kvs acc : List (String × PyJson),
      (∀ kv ∈ acc, FixedEntry kv) → ∀ kv ∈ sanitizeDictGo kvs acc, FixedEntry kv
  | [], acc, hacc => by rw [sanitizeDictGo]; exact hacc
  | (k, v) :: t, acc, hacc => by
    rw [sanitizeDictGo]
    exact sanitize_fixed_go t _ (dictInsert_fixed_all acc _ _ hacc
      ⟨replace_special_chars_idem k, sanitize_idem_aux v⟩)

end

/-! ## Bridging the flat-row sanitizer to `sanitize_keys`

The stream embeddings use `sanitizeRow` for the `sanitize_keys(row)`
call because a CSV row is a flat dict of scalars; the next lemmas check
that on such a dict whose sanitized keys do not collide — true of every
header set of the two report CSVs — `sanitize_keys` computes exactly
`sanitizeRow`.  (Under a collision Python keeps only the later entry,
which a flat key-rewrite cannot represent, hence the hypothesis.) -/

/-- A CSV cell as the JSON-like value `sanitize_keys` sees. -/
def cellToJson : Cell → PyJson
  | Cell.str s => PyJson.str s
  | Cell.intv n => PyJson.intv n
  | Cell.floatv q => PyJson.floatv q
  | Cell.nonev => PyJson.nonev

/-- A row as the dict `sanitize_keys` sees. -/
def rowToJson (row : Row) : PyJson :=
  PyJson.dict (row.map fun kv => (kv.1, cellToJson kv.2))

theorem sanitize_keys_cellToJson (v : Cell) : sanitize_keys (cellToJson v) = cellToJson v := by
  cases v <;> simp [cellToJson, sanitize_keys]

theorem sanitizeRow_map_cells :
    ∀ row : Row, (sanitizeRow row).map (fun kv => (kv.1, cellToJson kv.2)) =
      row.map fun kv => (replace_special_chars kv.1, cellToJson kv.2) := by
  intro row
  induction row with
  | nil => rfl
  | cons kv t ih =>
    obtain ⟨k, v⟩ := kv
    rw [sanitizeRow, List.map_cons, List.map_cons, List.map_cons]
    rw [sanitizeRow] at ih
    rw [ih]

theorem sanitizeDictGo_cells :
    ∀ (row : Row) (acc : List (String × PyJson)),
      (row.map fun kv => replace_special_chars kv.1).Nodup →
      (∀ x ∈ row.map fun kv => replace_special_chars kv.1, x ∉ keysOf acc) →
      sanitizeDictGo (row.map fun kv => (kv.1, cellToJson kv.2)) acc =
        acc ++ row.map fun kv => (replace_special_chars kv.1, cellToJson kv.2) := by
  intro row
  induction row with
  | nil =>
    intro acc _ _
    rw [List.map_nil, List.map_nil, sanitizeDictGo, List.append_nil]
  | cons kv t ih =>
    intro acc hnd hdisj
    obtain ⟨k, v⟩ := kv
    rw [List.map_cons, List.map_cons, sanitizeDictGo, sanitize_keys_cellToJson]
    rw [List.map_cons] at hnd hdisj
    rw [List.nodup_cons] at hnd
    have hfresh : replace_special_chars k ∉ keysOf acc :=
      hdisj _ (List.mem_cons_self _ _)
    rw [dictInsert_fresh acc _ _ hfresh]
    have hdisj2 : ∀ x ∈ t.map fun kv => replace_special_chars kv.1,
        x ∉ keysOf (acc ++ [(replace_special_chars k, cellToJson v)]) := by
      intro x hx
      rw [keysOf_append, List.mem_append]
      push_neg
      refine ⟨hdisj x (List.mem_cons_of_mem _ hx), ?_⟩
      rw [keysOf_cons, keysOf_nil, List.mem_singleton]
      intro h
      subst h
      exact hnd.1 hx
    rw [ih _ hnd.2 hdisj2, List.append_assoc]
    rfl

/-- On a flat record whose sanitized keys do not collide,
`sanitize_keys` is exactly `sanitizeRow`. -/
theorem sanitize_keys_rowToJson (row : Row)
    (h : (row.map fun kv => replace_special_chars kv.1).Nodup) :
    sanitize_keys (rowToJson row) = rowToJson (sanitizeRow row) := by
  rw [rowToJson, rowToJson]
  rw [show sanitize_keys (PyJson.dict (row.map fun kv => (kv.1, cellToJson kv.2))) =
    PyJson.dict (sanitizeDictGo (row.map fun kv => (kv.1, cellToJson kv.2)) []) by
      rw [sanitize_keys]]
  rw [sanitizeDictGo_cells row [] h (fun x _ hx => absurd hx (List.not_mem_nil x)),
    List.nil_append, sanitizeRow_map_cells]

/-! ## The claims -/

/-- C1 (counterexample): the sales currency coercion does not leave a
string that fails float conversion as-is, and does not strip only a
leading currency symbol: with `Total_Commission = "$a$"` the record is
produced without error, but the field ends up as `"a"` — every dollar
sign removed, including the non-leading one — not as the original
`"$a$"`. -/
theorem claim1_currency_asis_counterexample :
    sales_post_process
        (mkSalesRow (Cell.str "1") (Cell.str "1") (Cell.str "1") (Cell.str "$a$")
          (Cell.str "") (Cell.str "") (Cell.str ""))
      = Except.ok
        (mkSalesRow (Cell.intv 1) (Cell.intv 1) (Cell.intv 1) (Cell.str "a")
          Cell.nonev Cell.nonev Cell.nonev)
    ∧ Cell.str "a" ≠ Cell.str "$a$" := by
  constructor
  · decide
  · decide

/-- C1 (amended): for the sales stream's currency fields
(`Total_Commission`, `Incentive_Commission`, `Base_Commission`,
`Transaction_Amount`), `post_process` removes every `$` character (not
only a leading one), replaces `(` by `-` and removes `)` before float
conversion, so `"($12.50)"` becomes `-12.5` and `"$0.00"` becomes
`0.0`; an empty (stripped) string becomes `None`; and any string whose
stripped form still fails float conversion (e.g. `"N/A"`) leaves the
field holding the stripped form — identical to the original whenever it
contains none of `$ ( )` — with the failure reported, not raised: the
record is still produced. -/
theorem claim1_currency_coercion (mi ic wid : Cell) (tc inc bc ta : String) :
    sales_post_process
        (mkSalesRow mi ic wid (Cell.str tc) (Cell.str inc) (Cell.str bc) (Cell.str ta))
      = Except.ok
        (mkSalesRow (procIntCell mi) (procIntCell ic) (procIntCell wid)
          (procFloatStrCell tc) (procFloatStrCell inc) (procFloatStrCell bc)
          (procFloatStrCell ta))
    ∧ procFloatStrCell "($12.50)" = Cell.floatv (mkRat (-25) 2)
    ∧ procFloatStrCell "$0.00" = Cell.floatv (mkRat 0 1)
    ∧ procFloatStrCell "" = Cell.nonev
    ∧ procFloatStrCell "N/A" = Cell.str "N/A"
    ∧ (∀ s : String, stripCurrency s = "" → procFloatStrCell s = Cell.nonev)
    ∧ (∀ s : String, ∀ q : ℚ, stripCurrency s ≠ "" →
        pyFloatOfString (stripCurrency s) = some q → procFloatStrCell s = Cell.floatv q)
    ∧ (∀ s : String, stripCurrency s ≠ "" →
        pyFloatOfString (stripCurrency s) = Option.none →
        procFloatStrCell s = Cell.str (stripCurrency s)) := by
  refine ⟨sales_post_unroll mi ic wid tc inc bc ta, by decide, by decide, by decide,
    by decide, ?_, ?_, ?_⟩
  · intro s h
    simp [procFloatStrCell, set_none_or_cast, h]
  · intro s q hne hq
    rw [procFloatStrCell, set_none_or_cast]
    rw [if_neg (by simp [hne])]
    simp [hq]
  · intro s hne hq
    rw [procFloatStrCell, set_none_or_cast]
    rw [if_neg (by simp [hne])]
    simp [hq]

/-- C1 witness: the amended coercion at concrete inputs. -/
theorem claim1_currency_coercion_witness :
    procFloatStrCell "$1.50" = Cell.floatv (mkRat 3 2) :=
  (claim1_currency_coercion Cell.nonev Cell.nonev Cell.nonev "" "" "" "").2.2.2.2.2.2.1
    "$1.50" (mkRat 3 2) (by decide) (by decide)

/-- C2 (counterexample): on the sales_hits stream an empty
`Transaction_Amount` does not become null: `float('')` raises a caught
`ValueError` and the empty string stays in place, unlike the sales
stream's `set_none_or_cast`, which maps `""` to `None`. -/
theorem claim2_hits_empty_counterexample :
    sales_hits_post_process
        (mkHitsRow (Cell.str "3/4/2023 13:05") Cell.nonev (Cell.str ""))
      = Except.ok
        (mkHitsRow (Cell.str "2023-03-04 13:05:00") Cell.nonev (Cell.str ""))
    ∧ Cell.str "" ≠ Cell.nonev := by
  constructor
  · decide
  · decide

/-- C2 (amended): on every sales_hits record whose `Date` parses,
`post_process` applies to a string `Transaction_Amount` the same
currency strip as the sales stream and then the builtin `float`
directly — without the empty-string-to-null step: when the stripped
string converts, the field becomes that float; when conversion fails
(including the empty string, whose `float('')` raises `ValueError`),
the stripped string is left in place, the failure is reported and
neither the record nor the stream is aborted. -/
theorem claim2_hits_amount_coercion (d s : String) (mv : Cell) (t : PyDateTime)
    (hd : parseMdYHm d = some t) :
    (∀ q : ℚ, pyFloatOfString (stripCurrency s) = some q →
      sales_hits_post_process (mkHitsRow (Cell.str d) mv (Cell.str s)) =
        Except.ok (mkHitsRow (Cell.str (fmtDateTime t)) mv (Cell.floatv q)))
    ∧ (pyFloatOfString (stripCurrency s) = Option.none →
      sales_hits_post_process (mkHitsRow (Cell.str d) mv (Cell.str s)) =
        Except.ok (mkHitsRow (Cell.str (fmtDateTime t)) mv (Cell.str (stripCurrency s))))
    ∧ pyFloatOfString "" = Option.none := by
  refine ⟨?_, ?_, by decide⟩
  · intro q hq
    rw [hits_post_unroll, hd, hq]
  · intro hq
    rw [hits_post_unroll, hd, hq]

/-- C2 witness: the amended behavior at concrete inputs. -/
theorem claim2_hits_amount_coercion_witness :
    sales_hits_post_process
        (mkHitsRow (Cell.str "3/4/2023 13:05") Cell.nonev (Cell.str "($2.50)"))
      = Except.ok
        (mkHitsRow (Cell.str "2023-03-04 13:05:00") Cell.nonev
          (Cell.floatv (mkRat (-5) 2))) := by
  have h := (claim2_hits_amount_coercion "3/4/2023 13:05" "($2.50)" Cell.nonev
    ⟨2023, 3, 4, 13, 5, 0⟩ (by decide)).1 (mkRat (-5) 2) (by decide)
  rw [h]
  decide

/-- C3: the sales_hits `Date` field is reformatted from `MM/DD/YYYY
HH:MM` to `YYYY-MM-DD HH:MM:SS` (`"3/4/2023 13:05"` becomes
`"2023-03-04 13:05:00"`), and the reformat is not fault-tolerant: a
`Date` value that does not parse makes `post_process` end in the
uncaught `ValueError` instead of leaving the value unchanged. -/
theorem claim3_hits_date_reformat (d s : String) (mv : Cell) :
    (parseMdYHm d = Option.none →
      sales_hits_post_process (mkHitsRow (Cell.str d) mv (Cell.str s)) =
        Except.error PyErr.valueError)
    ∧ (∀ t : PyDateTime, parseMdYHm d = some t →
      ∃ r' : Row, sales_hits_post_process (mkHitsRow (Cell.str d) mv (Cell.str s)) =
          Except.ok r'
        ∧ rowGet r' "Date" = some (Cell.str (fmtDateTime t)))
    ∧ parseMdYHm "3/4/2023 13:05" = some ⟨2023, 3, 4, 13, 5, 0⟩
    ∧ fmtDateTime ⟨2023, 3, 4, 13, 5, 0⟩ = "2023-03-04 13:05:00" := by
  refine ⟨?_, ?_, by decide, by decide⟩
  · intro hd
    rw [hits_post_unroll, hd]
  · intro t hd
    rw [hits_post_unroll, hd]
    cases hf : pyFloatOfString (stripCurrency s) with
    | none =>
      refine ⟨mkHitsRow (Cell.str (fmtDateTime t)) mv (Cell.str (stripCurrency s)), rfl, ?_⟩
      simp [mkHitsRow, rowGet]
    | some q =>
      refine ⟨mkHitsRow (Cell.str (fmtDateTime t)) mv (Cell.floatv q), rfl, ?_⟩
      simp [mkHitsRow, rowGet]

/-- C3 witness: a bad date aborts; a good date is reformatted. -/
theorem claim3_hits_date_reformat_witness :
    sales_hits_post_process (mkHitsRow (Cell.str "2023-03-04") Cell.nonev (Cell.str "1"))
      = Except.error PyErr.valueError :=
  (claim3_hits_date_reformat "2023-03-04" "1" Cell.nonev).1 (by decide)

/-- C4: for the sales stream's integer fields (`Merchant_Id`,
`Item_Count`, `Website_Id`), `post_process` maps an empty string or an
absent value (the `None` a short CSV row produces) to `None`, converts
a numeric string such as `"42"` to the integer `42`, leaves a value
already of integer type unchanged, and on conversion failure (e.g.
`"abc"`) leaves the value as-is with the failure reported and no
exception: the record is still produced. -/
theorem claim4_sales_int_cast_or_null (mi ic wid : Cell) (tc inc bc ta : String) :
    sales_post_process
        (mkSalesRow mi ic wid (Cell.str tc) (Cell.str inc) (Cell.str bc) (Cell.str ta))
      = Except.ok
        (mkSalesRow (procIntCell mi) (procIntCell ic) (procIntCell wid)
          (procFloatStrCell tc) (procFloatStrCell inc) (procFloatStrCell bc)
          (procFloatStrCell ta))
    ∧ procIntCell Cell.nonev = Cell.nonev
    ∧ procIntCell (Cell.str "") = Cell.nonev
    ∧ (∀ (s : String) (n : Int), pyIntOfString s = some n →
        procIntCell (Cell.str s) = Cell.intv n)
    ∧ procIntCell (Cell.str "42") = Cell.intv 42
    ∧ (∀ n : Int, procIntCell (Cell.intv n) = Cell.intv n)
    ∧ (∀ s : String, s ≠ "" → pyIntOfString s = Option.none →
        procIntCell (Cell.str s) = Cell.str s)
    ∧ procIntCell (Cell.str "abc") = Cell.str "abc" := by
  refine ⟨sales_post_unroll mi ic wid tc inc bc ta, by decide, by decide, ?_,
    by decide, ?_, ?_, by decide⟩
  · intro s n hn
    have hne : s ≠ "" := by
      intro h
      subst h
      rw [show pyIntOfString "" = Option.none by decide] at hn
      exact Option.noConfusion hn
    rw [procIntCell, set_none_or_cast]
    rw [if_neg (by simp [hne])]
    simp [hn]
  · intro n
    rw [procIntCell, set_none_or_cast]
    rw [if_neg (by simp)]
  · intro s hne hn
    rw [procIntCell, set_none_or_cast]
    rw [if_neg (by simp [hne])]
    simp [hn]

/-- C4 witness: the integer cast-or-null at concrete inputs. -/
theorem claim4_sales_int_cast_or_null_witness :
    procIntCell (Cell.str "7") = Cell.intv 7 :=
  (claim4_sales_int_cast_or_null Cell.nonev Cell.nonev Cell.nonev "" "" "" "").2.2.2.1
    "7" 7 (by decide)

theorem DayChunkPaginator.init_end_date {start_date : String} {today increment : Int}
    {p : DayChunkPaginator}
    (h : DayChunkPaginator.init start_date today increment = some p) :
    p.end_date = today := by
  rw [DayChunkPaginator.init] at h
  cases hp : parseYmd start_date with
  | none => rw [hp] at h; exact Option.noConfusion h
  | some d =>
    rw [hp] at h
    have := Option.some.inj h
    rw [← this]

/-- C5: `has_more(response)` is true exactly when the cursor is strictly
before the end bound captured at construction (`datetime.today()`), for
a response argument of any type and value — responses never gate
advancement; and a paginator whose `start_date` is on or after that
bound yields zero windows: `has_more` is false and `get_next` is `None`
from the start. -/
theorem claim5_has_more_iff :
    (∀ (p : DayChunkPaginator) (ρ : Type) (r : ρ),
      (p.has_more r = true ↔ p.current_value < p.end_date))
    ∧ (∀ (start_date : String) (today increment : Int) (p : DayChunkPaginator),
      DayChunkPaginator.init start_date today increment = some p →
      today ≤ p.current_value →
      ∀ (ρ : Type) (r : ρ), p.has_more r = false ∧ p.get_next r = Option.none) := by
  constructor
  · intro p ρ r
    rw [DayChunkPaginator.has_more]
    exact decide_eq_true_iff
  · intro start_date today increment p hinit hge ρ r
    have hend := DayChunkPaginator.init_end_date hinit
    have hm : p.has_more r = false := by
      rw [DayChunkPaginator.has_more]
      rw [decide_eq_false_iff_not, hend]
      omega
    refine ⟨hm, ?_⟩
    rw [DayChunkPaginator.get_next, hm]
    simp

/-- C5 witness: a start date equal to the construction instant yields no
window. -/
theorem claim5_has_more_iff_witness :
    ({ current_value := toSeconds ⟨2024, 1, 1, 0, 0, 0⟩,
       end_date := toSeconds ⟨2024, 1, 1, 0, 0, 0⟩,
       increment := 28 } : DayChunkPaginator).has_more () = false :=
  (claim5_has_more_iff.2 "2024-01-01" (toSeconds ⟨2024, 1, 1, 0, 0, 0⟩) 28
    { current_value := toSeconds ⟨2024, 1, 1, 0, 0, 0⟩,
      end_date := toSeconds ⟨2024, 1, 1, 0, 0, 0⟩, increment := 28 }
    (by decide) (by decide) Unit ()).1

/-- C6: with a positive increment, a paginator started strictly before
its end bound reaches, after finitely many advances, a state where
`has_more` is false and `get_next` returns `None`; each advance moves
the window start by exactly `increment` days (`86400 * increment`
seconds); and at every reachable state — the initial one included —
`get_next` returns the cursor plus `increment` days while `has_more` is
true, and `None` once it is false. -/
theorem claim6_paginator_progress (p : DayChunkPaginator)
    (hinc : 1 ≤ p.increment) (hlt : p.current_value < p.end_date) :
    (∃ n : Nat, ∀ (ρ : Type) (r : ρ),
      (DayChunkPaginator.advance^[n] p).has_more r = false
      ∧ (DayChunkPaginator.advance^[n] p).get_next r = Option.none)
    ∧ (∀ n : Nat, (DayChunkPaginator.advance^[n + 1] p).current_value =
        (DayChunkPaginator.advance^[n] p).current_value + 86400 * p.increment)
    ∧ (∀ (n : Nat) (ρ : Type) (r : ρ),
        (DayChunkPaginator.advance^[n] p).has_more r = true →
        (DayChunkPaginator.advance^[n] p).get_next r =
          some ((DayChunkPaginator.advance^[n] p).current_value + 86400 * p.increment))
    ∧ (∀ (n : Nat) (ρ : Type) (r : ρ),
        (DayChunkPaginator.advance^[n] p).has_more r = false →
        (DayChunkPaginator.advance^[n] p).get_next r = Option.none) := by
  have hsome : ∀ (q : DayChunkPaginator) (ρ : Type) (r : ρ), q.has_more r = true →
      q.get_next r = some (q.current_value + 86400 * q.increment) := by
    intro q ρ r hm
    rw [DayChunkPaginator.get_next, hm]
    simp
  have hnone : ∀ (q : DayChunkPaginator) (ρ : Type) (r : ρ), q.has_more r = false →
      q.get_next r = Option.none := by
    intro q ρ r hm
    rw [DayChunkPaginator.get_next, hm]
    simp
  have hmfalse : ∀ (ρ : Type) (r : ρ),
      (DayChunkPaginator.advance^[(p.end_date - p.current_value).toNat] p).has_more r
        = false := by
    intro ρ r
    obtain ⟨h1, h2, _⟩ :=
      DayChunkPaginator.advance_iterate p (p.end_date - p.current_value).toNat
    rw [DayChunkPaginator.has_more, decide_eq_false_iff_not, not_lt, h1, h2]
    have hn : ((p.end_date - p.current_value).toNat : Int) = p.end_date - p.current_value := by
      omega
    have hmul : ((p.end_date - p.current_value).toNat : Int) * 1 ≤
        ((p.end_date - p.current_value).toNat : Int) * (86400 * p.increment) := by
      apply mul_le_mul_of_nonneg_left (by omega) (by omega)
    linarith
  refine ⟨⟨(p.end_date - p.current_value).toNat, fun ρ r =>
    ⟨hmfalse ρ r, hnone _ ρ r (hmfalse ρ r)⟩⟩, ?_, ?_, ?_⟩
  · intro n
    obtain ⟨h1, _, _⟩ := DayChunkPaginator.advance_iterate p n
    obtain ⟨h1s, _, _⟩ := DayChunkPaginator.advance_iterate p (n + 1)
    rw [h1, h1s]
    push_cast
    ring
  · intro n ρ r hm
    obtain ⟨_, _, h3⟩ := DayChunkPaginator.advance_iterate p n
    rw [hsome _ ρ r hm, h3]
  · intro n ρ r hm
    exact hnone _ ρ r hm

/-- C6 witness: a concrete paginator's initial state yields the 28-day
step, and after one advance past the bound `has_more` is false and
`get_next` is `None`. -/
theorem claim6_paginator_progress_witness :
    ({ current_value := 0, end_date := 100, increment := 28 } :
      DayChunkPaginator).get_next () = some (0 + 86400 * 28)
    ∧ (DayChunkPaginator.advance^[1]
        ({ current_value := 0, end_date := 100, increment := 28 } :
          DayChunkPaginator)).get_next () = Option.none :=
  ⟨(claim6_paginator_progress { current_value := 0, end_date := 100, increment := 28 }
      (by decide) (by decide)).2.2.1 0 Unit () (by decide),
   (claim6_paginator_progress { current_value := 0, end_date := 100, increment := 28 }
      (by decide) (by decide)).2.2.2 1 Unit () (by decide)⟩

/-- C7: `sanitize_keys` leaves no space, hyphen, ampersand or slash in
any key of its output, at every nesting depth; and any scalar value
(string, number, boolean, `None`) given to it is returned unchanged —
the non-dict, non-list case of the function, which is what spec section
4.4 asserts of scalars.  (Dict entries whose keys collide after
sanitization follow Python dict semantics via `dictInsert`: the later
entry overwrites the earlier — the spec's accepted trade-off, so no
leaf-preservation across collisions is claimed.) -/
theorem claim7_sanitize_clean (v : PyJson) :
    keysClean (sanitize_keys v) = true
    ∧ (∀ s : String, sanitize_keys (PyJson.str s) = PyJson.str s)
    ∧ (∀ n : Int, sanitize_keys (PyJson.intv n) = PyJson.intv n)
    ∧ (∀ q : ℚ, sanitize_keys (PyJson.floatv q) = PyJson.floatv q)
    ∧ (∀ b : Bool, sanitize_keys (PyJson.boolv b) = PyJson.boolv b)
    ∧ sanitize_keys PyJson.nonev = PyJson.nonev :=
  ⟨keysClean_sanitize v, fun s => by rw [sanitize_keys], fun n => by rw [sanitize_keys],
   fun q => by rw [sanitize_keys], fun b => by rw [sanitize_keys], by rw [sanitize_keys]⟩

/-- C8: `sanitize_keys` is idempotent on every nested
mapping/sequence/scalar value (key collisions included: a first pass
leaves distinct, already-sanitized keys, which a second pass re-inserts
unchanged and in order). -/
theorem claim8_sanitize_idem (v : PyJson) :
    sanitize_keys (sanitize_keys v) = sanitize_keys v :=
  sanitize_idem_aux v

/-- C9: every request built by `get_url_params` carries
`date_begin` equal to the rendered token and `date_end` equal to the
rendering of the token plus exactly 28 days, both in
`YYYY-MM-DD HH:MM:SS` format; the function takes no clock input, so the
end is never clamped to today — windows may extend into the future.
Stated for tokens with a four-digit year: CPython's `strptime` matches
`%Y` as exactly four digits, so the `strftime`/`strptime` roundtrip
inside the function only succeeds for such tokens (and every token the
paginator produces from a parsable `start_date` is one). -/
theorem claim9_date_window (cfg : StreamConfig) (t : PyDateTime)
    (hv : isValidDateTime t = true) (hy : 1000 ≤ t.year) :
    get_url_params cfg t = Except.ok
      ([("module", "AffiliateReport"), ("affiliate_id", cfg.publisher_id),
        ("auth_key", cfg.auth_token), ("report_id", cfg.report_id),
        ("website_id", "0"), ("merchant_id", "0"), ("output", "csv"),
        ("date_begin", fmtDateTime t), ("date_end", fmtDateTime (addDays t 28))] ++
        (match cfg.replication_key with
         | some k => [("sort", "asc"), ("order_by", k)]
         | Option.none => [])) :=
  get_url_params_spec cfg t hv hy

/-- C9 witness: a January window is begun at its start and ended 28
days later, even when that end lies in the future of any conceivable
run date. -/
theorem claim9_date_window_witness :
    get_url_params ⟨"pub", "tok", "8", Option.none⟩ ⟨2023, 1, 1, 0, 0, 0⟩ =
      Except.ok
        [("module", "AffiliateReport"), ("affiliate_id", "pub"), ("auth_key", "tok"),
         ("report_id", "8"), ("website_id", "0"), ("merchant_id", "0"), ("output", "csv"),
         ("date_begin", "2023-01-01 00:00:00"), ("date_end", "2023-01-29 00:00:00")] := by
  have h := claim9_date_window ⟨"pub", "tok", "8", Option.none⟩ ⟨2023, 1, 1, 0, 0, 0⟩
    (by decide) (by decide)
  rw [h]
  decide

/-- C10: the paginator's end bound is the exact construction instant —
whatever its time of day — stored once; every later `has_more` compares
the advanced cursor against that same instant, which no number of
advances recomputes or alters. -/
theorem claim10_end_bound_fixed (start_date : String) (today increment : Int)
    (p : DayChunkPaginator)
    (h : DayChunkPaginator.init start_date today increment = some p) :
    p.end_date = today
    ∧ (∀ n : Nat, (DayChunkPaginator.advance^[n] p).end_date = today)
    ∧ (∀ n : Nat, ∀ (ρ : Type) (r : ρ),
        (DayChunkPaginator.advance^[n] p).has_more r =
          decide ((DayChunkPaginator.advance^[n] p).current_value < today)) := by
  have hend := DayChunkPaginator.init_end_date h
  refine ⟨hend, ?_, ?_⟩
  · intro n
    obtain ⟨_, h2, _⟩ := DayChunkPaginator.advance_iterate p n
    rw [h2, hend]
  · intro n ρ r
    obtain ⟨_, h2, _⟩ := DayChunkPaginator.advance_iterate p n
    rw [DayChunkPaginator.has_more, h2, hend]

/-- C10 witness: a mid-day construction instant is preserved across
advances and is what `has_more` compares against. -/
theorem claim10_end_bound_fixed_witness :
    (DayChunkPaginator.advance^[2]
      ({ current_value := toSeconds ⟨2024, 1, 1, 0, 0, 0⟩,
         end_date := toSeconds ⟨2024, 1, 2, 13, 45, 7⟩,
         increment := 28 } : DayChunkPaginator)).end_date =
      toSeconds ⟨2024, 1, 2, 13, 45, 7⟩ :=
  (claim10_end_bound_fixed "2024-01-01" (toSeconds ⟨2024, 1, 2, 13, 45, 7⟩) 28
    { current_value := toSeconds ⟨2024, 1, 1, 0, 0, 0⟩,
      end_date := toSeconds ⟨2024, 1, 2, 13, 45, 7⟩, increment := 28 }
    (by decide)).2.1 2

end TapAvantlink
